import Mathlib

/-!
Shallow embedding of the vdj-video-sync coordination server
(Go sources under server/internal and the deck-update HTTP handlers),
together with proofs about the matcher, the master election, the
transition/event ordering, the SSE hub back-pressure, the video position
tracker and the library scan.

Modelling conventions:
* Go `float64` values (BPM, volume, pitch, rates, wall-clock milliseconds)
  are modelled as `ℚ`; all constants involved are exactly representable.
* Go strings are Lean `String`s; Go's byte-wise operations (Levenshtein,
  FNV-1a) work on the UTF-8 bytes, reproduced here by an explicit UTF-8
  encoder.  `strings.ToLower` is modelled on ASCII letters, which is all
  the matcher's inputs use it for.
* Go maps keyed by deck number are association lists; map iteration order
  (which Go randomises) is the list order, and the election theorems are
  proved for every order.
* `math/rand` draws are oracle values threaded through the handler state
  (`rng`), reduced modulo the Go argument of `rand.IntN`.
-/

namespace VdjSync

/-! ### String helpers (strings.ToLower / TrimSpace / TrimSuffix, filepath.Ext) -/

/-- ASCII lower-casing of one character (model of `strings.ToLower` on the
ASCII range the matcher uses). -/
def lowerChar (c : Char) : Char :=
  if 'A' ≤ c ∧ c ≤ 'Z' then Char.ofNat (c.toNat + 32) else c

/-- Lower-case a string character-wise. -/
def lowerStr (s : String) : String :=
  String.mk (s.toList.map lowerChar)

/-- ASCII whitespace test used by the model of `strings.TrimSpace`. -/
def isSpaceChar (c : Char) : Bool :=
  c = ' ' ∨ c = '\t' ∨ c = '\n' ∨ c = '\r'

/-- Model of `strings.TrimSpace`. -/
def trimSpace (s : String) : String :=
  String.mk (((s.toList.dropWhile isSpaceChar).reverse.dropWhile isSpaceChar).reverse)

/-- Model of `strings.TrimSuffix`. -/
def trimSuffix (s suf : String) : String :=
  if suf.toList.isSuffixOf s.toList then
    String.mk (s.toList.take (s.toList.length - suf.toList.length))
  else s

/-- Model of `filepath.Ext`: the suffix of the name starting at its final
dot, or "" when the name has no dot (the library names contain no path
separators). -/
def extOf (s : String) : String :=
  let rev := s.toList.reverse
  let tailPart := rev.takeWhile (fun c => c ≠ '.')
  if tailPart.length = rev.length then ""
  else String.mk ('.' :: tailPart.reverse)

/-! ### Levenshtein distance and similarity (matcher.go `levenshtein`, `similarity`) -/

/-- Inner loop of the single-row Levenshtein DP: walks the second string
and the previous row, carrying the diagonal value and the value just
written to the left. -/
def levInner (ca : Char) : List Char → List Nat → Nat → Nat → List Nat
  | [], _, _, _ => []
  | _, [], _, _ => []
  | bj :: bs, rj :: rs, diag, left =>
    let cost := if ca = bj then 0 else 1
    let v := min (left + 1) (min (rj + 1) (diag + cost))
    v :: levInner ca bs rs rj v

/-- Outer loop of the DP: one pass per character of the first string,
starting each new row with the row index. -/
def levLoop (b : List Char) : List Char → Nat → List Nat → List Nat
  | [], _, row => row
  | ca :: as1, i, row =>
    match row with
    | [] => []
    | r0 :: rs => levLoop b as1 (i + 1) (i :: levInner ca b rs r0 i)

/-- Model of matcher.go `levenshtein` (edit distance via a single reusable
row, operating on the UTF-8 units of the Go strings). -/
def levenshtein (a b : List Char) : Nat :=
  if a.length = 0 then b.length
  else if b.length = 0 then a.length
  else (levLoop b a 1 (List.range (b.length + 1))).getLastD 0

/-- Model of matcher.go `similarity`: Levenshtein distance normalised by
the longer length, 1 for equal strings, 0 when either side is empty. -/
def similarity (a b : List Char) : ℚ :=
  if a = b then 1
  else if a.length = 0 ∨ b.length = 0 then 0
  else 1 - (levenshtein a b : ℚ) / (max a.length b.length : ℚ)

/-! ### FNV-1a hash and the stable index (matcher.go `stableIndex`) -/

/-- UTF-8 encoding of one character as byte values. -/
def utf8Bytes (c : Char) : List Nat :=
  let n := c.toNat
  if n < 128 then [n]
  else if n < 2048 then [192 + n / 64, 128 + n % 64]
  else if n < 65536 then [224 + n / 4096, 128 + (n / 64) % 64, 128 + n % 64]
  else [240 + n / 262144, 128 + (n / 4096) % 64, 128 + (n / 64) % 64, 128 + n % 64]

/-- UTF-8 bytes of a string (what Go hashes). -/
def strBytes (s : String) : List Nat :=
  (s.toList.map utf8Bytes).flatten

/-- 32-bit FNV-1a over the UTF-8 bytes of a string. -/
def fnv32 (s : String) : Nat :=
  (strBytes s).foldl (fun h b => ((h ^^^ b) * 16777619) % 4294967296) 2166136261

/-- Model of matcher.go `stableIndex`: deterministic index in `[0, n)`
derived from the FNV-1a hash of the key. -/
def stableIndex (key : String) (n : Nat) : Nat :=
  fnv32 key % n

/-! ### Matcher data model (models.VideoFile, matcher.go `indexedFile`) -/

/-- Model of `models.VideoFile`. -/
structure VideoFile where
  name : String
  path : String
  bpm : ℚ
  matchType : String
  matchLevel : Nat
  similarity : ℚ
deriving DecidableEq, Repr

/-- Model of matcher.go `indexedFile`: a video with its pre-computed
lower-case stem. -/
structure IndexedFile where
  file : VideoFile
  stem : String
deriving DecidableEq, Repr

/-- Matcher state: the index, the set of half-time-corrected paths, and
the durable BPM cache (a path-keyed association list standing for the
`video_bpm` table). -/
structure MatcherState where
  indexed : List IndexedFile
  bpmCorrected : List String
  bpmCache : List (String × ℚ)
deriving DecidableEq, Repr

/-- Cache lookup by path. -/
def cacheGet (c : List (String × ℚ)) (p : String) : Option ℚ :=
  (c.find? (fun e => e.1 = p)).map (fun e => e.2)

/-- Cache upsert by path (model of `bpm.Cache.Set`). -/
def cacheSet (c : List (String × ℚ)) (p : String) (v : ℚ) : List (String × ℚ) :=
  (p, v) :: c.filter (fun e => e.1 ≠ p)

/-- In-place BPM update of the first index entry with the given path
(the loop in matcher.go `UpdateBPM` breaks after the first hit). -/
def setFirstBPM : List IndexedFile → String → ℚ → List IndexedFile
  | [], _, _ => []
  | ix :: rest, p, nb =>
    if ix.file.path = p then { ix with file := { ix.file with bpm := nb } } :: rest
    else ix :: setFirstBPM rest p nb

/-- Model of matcher.go `UpdateBPM`: update the in-memory index and
persist to the BPM cache.  The `os.Stat` in the source is modelled as
succeeding (the file is on disk while it is indexed), and the cache key
is the served path. -/
def updateBPM (st : MatcherState) (videoPath : String) (newBPM : ℚ) : MatcherState :=
  { st with
    indexed := setFirstBPM st.indexed videoPath newBPM
    bpmCache := cacheSet st.bpmCache videoPath newBPM }

/-- Model of matcher.go `correctHalfTimeBPM`: double a half-time BPM at
most once per path and persist the correction. -/
def correctHalfTimeBPM (st : MatcherState) (v : VideoFile) (deckBPM : ℚ) :
    VideoFile × MatcherState :=
  if v.bpm ≤ 0 ∨ deckBPM ≤ 0 then (v, st)
  else if st.bpmCorrected.contains v.path then (v, st)
  else
    let diffDirect := |v.bpm - deckBPM|
    let diffDoubled := |v.bpm * 2 - deckBPM|
    if diffDoubled < diffDirect ∧ diffDoubled ≤ 3 then
      let newBPM := v.bpm * 2
      let st1 := { st with bpmCorrected := v.path :: st.bpmCorrected }
      ({ v with bpm := newBPM }, updateBPM st1 v.path newBPM)
    else (v, st)

/-- Model of matcher.go `bpmDiff`: BPM distance accounting for half-time,
`min (|a−b|) (min (|a−2b|) (|2a−b|))`. -/
def bpmDiff (a b : ℚ) : ℚ :=
  min (|a - b|) (min (|a - 2 * b|) (|2 * a - b|))

/-! ### The tiered Match cascade (matcher.go `Match`) -/

/-- Level 0: first exact (case-insensitive) filename match. -/
def levelExact (indexed : List IndexedFile) (songLower : String) : Option VideoFile :=
  (indexed.find? (fun ix => lowerStr ix.file.name = songLower)).map
    (fun ix => { ix.file with matchLevel := 0, matchType := "exact", similarity := 1 })

/-- Level 1: first stem match, skipped when the song stem is empty. -/
def levelStem (indexed : List IndexedFile) (songStem : String) : Option VideoFile :=
  if songStem = "" then none
  else
    (indexed.find? (fun ix => ix.stem = songStem)).map
      (fun ix => { ix.file with matchLevel := 1, matchType := "stem", similarity := 1 })

/-- One step of the level-2 best-candidate loop: accept a candidate when
its similarity is ≥ 0.70 and strictly beats the best so far. -/
def fuzzyStep (ss : String) (acc : ℚ × Option IndexedFile) (ix : IndexedFile) :
    ℚ × Option IndexedFile :=
  let sim := similarity ss.toList ix.stem.toList
  if 7/10 ≤ sim ∧ acc.1 < sim then (sim, some ix) else acc

/-- The level-2 best-candidate fold, starting from best similarity 0 and
no hit. -/
def fuzzyFold (songStem : String) (indexed : List IndexedFile) : ℚ × Option IndexedFile :=
  indexed.foldl (fuzzyStep songStem) (0, none)

/-- Level 2: fuzzy filename match at ≥ 0.70 similarity. -/
def levelFuzzy (indexed : List IndexedFile) (songStem : String) : Option VideoFile :=
  match fuzzyFold songStem indexed with
  | (bestSim, some ix) =>
    some { ix.file with matchLevel := 2, matchType := "fuzzy", similarity := bestSim }
  | (_, none) => none

/-- A level-3/4 candidate: the index entry, its similarity and its folded
BPM distance to the deck. -/
structure BPMCand where
  ix : IndexedFile
  sim : ℚ
  diff : ℚ
deriving DecidableEq, Repr

/-- Insertion into a diff-sorted candidate list. -/
def insertByDiff (c : BPMCand) : List BPMCand → List BPMCand
  | [] => [c]
  | d :: rest => if c.diff < d.diff then c :: d :: rest else d :: insertByDiff c rest

/-- Sort candidates by ascending BPM distance (model of the `sort.Slice`
calls; which permutation the unstable Go sort produces does not matter to
any claim, only that the result is a permutation sorted by `diff`). -/
def sortByDiff : List BPMCand → List BPMCand
  | [] => []
  | c :: rest => insertByDiff c (sortByDiff rest)

/-- The level-3 candidate test: candidate BPM known and similarity at
least 0.30, yielding the entry with its similarity and folded BPM
distance. -/
def bpmFuzzyCand (songStem : String) (deckBPM : ℚ) (ix : IndexedFile) : Option BPMCand :=
  if ix.file.bpm ≤ 0 then none
  else
    let sim := similarity songStem.toList ix.stem.toList
    if sim < 3/10 then none
    else some ⟨ix, sim, bpmDiff deckBPM ix.file.bpm⟩

/-- The level-4 candidate test: candidate BPM known (the similarity slot
is unused at level 4 and holds 0). -/
def bpmCandOf (deckBPM : ℚ) (ix : IndexedFile) : Option BPMCand :=
  if ix.file.bpm ≤ 0 then none
  else some ⟨ix, 0, bpmDiff deckBPM ix.file.bpm⟩

/-- Level 3: deck BPM known, candidate BPM known, similarity ≥ 0.30;
rank by folded BPM distance and pick stably from the top 5. -/
def levelBPMFuzzy (indexed : List IndexedFile) (songLower songStem : String)
    (deckBPM : ℚ) : Option VideoFile :=
  if 0 < deckBPM then
    let candidates := indexed.filterMap (bpmFuzzyCand songStem deckBPM)
    match sortByDiff candidates with
    | [] => none
    | c :: rest =>
      let sorted := c :: rest
      let top := min 5 sorted.length
      let pick := stableIndex songLower top
      let chosen := sorted.getD pick c
      some { chosen.ix.file with
              matchLevel := 3, matchType := "bpm-fuzzy", similarity := chosen.sim }
  else none

/-- Level 4: deck BPM known, candidate BPM known; rank by folded BPM
distance and pick stably from the top 5 (the similarity field is left as
stored, as in the source). -/
def levelBPM (indexed : List IndexedFile) (songLower : String)
    (deckBPM : ℚ) : Option VideoFile :=
  if 0 < deckBPM then
    let candidates := indexed.filterMap (bpmCandOf deckBPM)
    match sortByDiff candidates with
    | [] => none
    | c :: rest =>
      let sorted := c :: rest
      let top := min 5 sorted.length
      let pick := stableIndex songLower top
      let chosen := sorted.getD pick c
      some { chosen.ix.file with matchLevel := 4, matchType := "bpm" }
  else none

/-- Level 5: any indexed video, picked stably by the FNV-1a hash of the
song name. -/
def levelRandom (indexed : List IndexedFile) (songLower : String) (dflt : IndexedFile) :
    VideoFile :=
  let chosen := indexed.getD (stableIndex songLower indexed.length) dflt
  { chosen.file with matchLevel := 5, matchType := "random" }

/-- The raw cascade: the first level whose preconditions hold, before the
half-time correction that every successful return performs. -/
def matchRaw (indexed : List IndexedFile) (songLower songStem : String)
    (deckBPM : ℚ) (dflt : IndexedFile) : VideoFile :=
  match levelExact indexed songLower with
  | some v => v
  | none =>
    match levelStem indexed songStem with
    | some v => v
    | none =>
      match levelFuzzy indexed songStem with
      | some v => v
      | none =>
        match levelBPMFuzzy indexed songLower songStem deckBPM with
        | some v => v
        | none =>
          match levelBPM indexed songLower deckBPM with
          | some v => v
          | none => levelRandom indexed songLower dflt

/-- The lower-cased, trimmed song filename used by the cascade. -/
def songLowerOf (songFilename : String) : String :=
  lowerStr (trimSpace songFilename)

/-- The song stem used by the cascade. -/
def songStemOf (songFilename : String) : String :=
  trimSuffix (songLowerOf songFilename) (lowerStr (extOf (songLowerOf songFilename)))

/-- Model of matcher.go `Match`: the tiered fallback, returning `none`
only on an empty index, and applying the half-time BPM correction to the
returned video. -/
def matchVideo (st : MatcherState) (songFilename : String) (deckBPM : ℚ) :
    Option VideoFile × MatcherState :=
  match st.indexed with
  | [] => (none, st)
  | d0 :: _ =>
    let songLower := songLowerOf songFilename
    let songStem := songStemOf songFilename
    let raw := matchRaw st.indexed songLower songStem deckBPM d0
    let vs := correctHalfTimeBPM st raw deckBPM
    (some vs.1, vs.2)

/-- The precondition of each match level, read off the cascade's guards:
level 0 exact filename, level 1 non-empty stem equality, level 2
similarity ≥ 0.70, level 3 deck BPM and candidate BPM known with
similarity ≥ 0.30, level 4 both BPMs known, level 5 any indexed video. -/
def levelApplies (indexed : List IndexedFile) (songLower songStem : String)
    (deckBPM : ℚ) : Nat → Bool
  | 0 => indexed.any (fun ix => decide (lowerStr ix.file.name = songLower))
  | 1 => (!decide (songStem = "")) && indexed.any (fun ix => decide (ix.stem = songStem))
  | 2 => indexed.any (fun ix => decide (7/10 ≤ similarity songStem.toList ix.stem.toList))
  | 3 => decide (0 < deckBPM) &&
      indexed.any (fun ix =>
        decide (0 < ix.file.bpm) && decide (3/10 ≤ similarity songStem.toList ix.stem.toList))
  | 4 => decide (0 < deckBPM) && indexed.any (fun ix => decide (0 < ix.file.bpm))
  | 5 => !indexed.isEmpty
  | _ => false

/-! ### BPM from filename and the library scan (matcher.go `parseBPMFromName`, `fmt_scan`, `Scan`) -/

/-- Does `sub` occur at the head of `xs`? -/
def startsWith : List Char → List Char → Bool
  | _, [] => true
  | [], _ :: _ => false
  | c :: cs, d :: ds => c = d && startsWith cs ds

/-- First index at which `sub` occurs in `xs` (model of `strings.Index`). -/
def indexOfSub : List Char → List Char → Option Nat
  | xs, sub =>
    if startsWith xs sub then some 0
    else
      match xs with
      | [] => none
      | _ :: rest => (indexOfSub rest sub).map (· + 1)

/-- Is the character a digit or a dot? -/
def isDigitDot (c : Char) : Bool :=
  ('0' ≤ c ∧ c ≤ '9') ∨ c = '.'

/-- Backward walk of `parseBPMFromName`: collect digits and dots right to
left, skipping other characters until the first digit is found, then
stopping at the next non-digit. -/
def collectBackGo : List Char → List Char → List Char
  | [], acc => acc
  | c :: rest, acc =>
    if isDigitDot c then collectBackGo rest (c :: acc)
    else if acc ≠ [] then acc
    else collectBackGo rest acc

/-- Model of matcher.go `fmt_scan`: parse a digits-and-dots string,
ignoring everything after a second dot. -/
def fmtScanGo : List Char → ℚ → ℚ → Bool → ℚ
  | [], r, _, _ => r
  | c :: rest, r, dec, pastDot =>
    if c = '.' then
      if pastDot then r else fmtScanGo rest r dec true
    else
      let digit : ℚ := ((c.toNat - '0'.toNat : Nat) : ℚ)
      if pastDot then fmtScanGo rest (r + digit / (dec * 10)) (dec * 10) pastDot
      else fmtScanGo rest (r * 10 + digit) dec pastDot

/-- Model of matcher.go `parseBPMFromName`: the digits (and dots)
immediately preceding the first occurrence of "bpm" in the lower-cased
name, parsed as a number; 0 when "bpm" is absent or at position 0 or no
digits are found. -/
def parseBPMFromName (name : String) : ℚ :=
  let lower := (lowerStr name).toList
  match indexOfSub lower ['b', 'p', 'm'] with
  | none => 0
  | some idx =>
    if idx = 0 then 0
    else
      let numStr := collectBackGo (lower.take idx).reverse []
      if numStr = [] then 0 else fmtScanGo numStr 0 1 false

/-- Model of matcher.go `analyseBPM`: the BPM cache is consulted first
and a hit is returned verbatim (the path+mod-time lookup succeeds for a
file unmodified since the entry was written — which `UpdateBPM` ensures
for its own writes, since it stats the file at write time; a mod-time
mismatch is modelled as absence from the cache); only on a miss does the
audio analyser run.  The write-back of a fresh result does not affect
the indexed values of the running scan and is omitted here.  The cache
is keyed canonically by the served path, as in `updateBPM`. -/
def analyseBPMOf (cache : List (String × ℚ)) (analyse : String → ℚ)
    (path name : String) : ℚ :=
  match cacheGet cache path with
  | some cached => cached
  | none => analyse name

/-- Model of matcher.go `Scan` on a directory listing: keep `.mp4` files,
take the BPM from the filename hint first, and otherwise (when a BPM
cache exists, `m.bpmCache != nil`) from `analyseBPMOf` — the cache hit
or, on a miss, the audio analyser (`bpm.AnalyseFile`, a float32 DSP
pipeline, supplied as a function argument). -/
def scanIndex (entries : List String) (pfx : String)
    (cache : Option (List (String × ℚ))) (analyse : String → ℚ) : List IndexedFile :=
  entries.filterMap (fun name =>
    let ext := lowerStr (extOf name)
    if ext = ".mp4" then
      let bpm0 := parseBPMFromName name
      let bpm1 :=
        if bpm0 ≤ 0 ∧ cache.isSome then
          analyseBPMOf (cache.getD []) analyse (pfx ++ name) name
        else bpm0
      some { file := { name := name, path := pfx ++ name, bpm := bpm1,
                       matchType := "", matchLevel := 0, similarity := 0 }
             stem := lowerStr (trimSuffix name (extOf name)) }
    else none)

/-! ### SSE hub back-pressure (sse/hub.go `Run`, handlers `HandleSSE`) -/

/-- The outbound channel capacity of one SSE client
(`make(chan []byte, 256)` in `HandleSSE`). -/
def hubCapacity : Nat := 256

/-- Model of the hub's per-client delivery in `Hub.Run`: a non-blocking
channel send.  The queue is FIFO; when it is full the send's `default`
branch fires, the NEW message is dropped and a warning is recorded (the
returned flag). -/
def hubSend (q : List Nat) (m : Nat) : List Nat × Bool :=
  if q.length < hubCapacity then (q ++ [m], false) else (q, true)

/-- Model of one `broadcast` iteration over all registered clients: every
client keeps its queue (possibly with the message appended); no client is
removed. -/
def hubBroadcast (clients : List (List Nat)) (m : Nat) : List (List Nat) :=
  clients.map (fun q => (hubSend q m).1)

/-! ### Handler data model (handlers.go) -/

/-- Model of `models.DeckState` (the fields the coordination logic
reads). -/
structure DeckState where
  deck : ℤ
  isAudible : Bool
  isPlaying : Bool
  volume : ℚ
  elapsedMs : ℤ
  bpm : ℚ
  filename : String
  pitch : ℚ
deriving DecidableEq, Repr

/-- Model of `activeDeckInfo`. -/
structure ActiveDeckInfo where
  isAudible : Bool
  isPlaying : Bool
  volume : ℚ
  hasVideo : Bool
deriving DecidableEq, Repr

/-- Model of `transitionPoolEntry`. -/
structure PoolEntry where
  video : String
  bpm : ℚ
deriving DecidableEq, Repr

/-- Model of `deckVideoSync`: the server-side video position accumulator
for match levels 2+.  Wall-clock times are rational milliseconds; the Go
zero time is modelled as 0. -/
structure DeckVideoSync where
  videoPath : String
  lastUpdate : ℚ
  accumulatedMs : ℚ
  lastRate : ℚ
  playing : Bool
deriving DecidableEq, Repr

/-- The events the deck-update ingest path can publish on the bus. -/
inductive SSEEvent where
  | transitionPlay (slot : Nat) (inCSS outCSS : String)
  | transitionPool (slots : List (Option PoolEntry))
  | deckUpdate (state : DeckState) (video : Option VideoFile) (videoElapsedMs : Option ℚ)
  | deckVisibility (deck : ℤ) (visible : Bool)
deriving DecidableEq, Repr

/-- HTTP outcome of the modelled handler paths (the JSON body is already
parsed in the model, so only the success-without-content outcome is
reachable). -/
inductive HStatus where
  | noContent
deriving DecidableEq, Repr

/-- The handler state (the fields of `Handlers` that the deck-update path
touches).  The SSE replay caches are not modelled: no claim mentions
them. -/
structure HState where
  matcher : MatcherState
  activeDeck : ℤ
  activeDeckStates : List (ℤ × ActiveDeckInfo)
  transitionPool : List (Option PoolEntry)
  transitionNextSlot : Nat
  videoSync : List (ℤ × DeckVideoSync)
  forcedVideo : List (ℤ × VideoFile)
  forcedFilename : List (ℤ × String)
  deckVisible : List (ℤ × Bool)
  deckHideTimerSet : List ℤ
  analysing : Bool
  rng : List Nat
deriving DecidableEq, Repr

/-- Read-only environment of one request: the wall clock, the transition
library (`transitionMatcher.ListAll`), and the randomly chosen enabled
in/out CSS effects (`transitions.RandomEnabled`). -/
structure Env where
  now : ℚ
  transitionVideos : List VideoFile
  inCSS : String
  outCSS : String

/-! ### Association-list operations for the Go maps -/

/-- Map update: replace in place or append. -/
def assocSet {α : Type} : List (ℤ × α) → ℤ → α → List (ℤ × α)
  | [], k, v => [(k, v)]
  | (k0, v0) :: rest, k, v =>
    if k0 = k then (k, v) :: rest else (k0, v0) :: assocSet rest k v

/-- Map lookup. -/
def assocGet {α : Type} (l : List (ℤ × α)) (k : ℤ) : Option α :=
  (l.find? (fun p => p.1 = k)).map (fun p => p.2)

/-- Map deletion. -/
def assocDel {α : Type} (l : List (ℤ × α)) (k : ℤ) : List (ℤ × α) :=
  l.filter (fun p => p.1 ≠ k)

/-! ### Master election (handlers.go `checkActiveDeckChange`) -/

/-- Does a deck qualify for the election (audible, playing, with a
matched video)? -/
def qualB (i : ActiveDeckInfo) : Bool :=
  i.isAudible && i.isPlaying && i.hasVideo

/-- One step of the election fold: take the deck when it qualifies and
either strictly beats the best volume or ties it while being the current
active deck. -/
def electStep (active : ℤ) (acc : ℤ × ℚ) (p : ℤ × ActiveDeckInfo) : ℤ × ℚ :=
  if qualB p.2 ∧ (acc.2 < p.2.volume ∨ (p.2.volume = acc.2 ∧ p.1 = active)) then
    (p.1, p.2.volume)
  else acc

/-- The loop of `checkActiveDeckChange` over the per-deck records, with
initial best volume −1 and best deck 0 (none). -/
def electBest (l : List (ℤ × ActiveDeckInfo)) (active : ℤ) : ℤ :=
  (l.foldl (electStep active) (0, -1)).1

/-- The elected master after the keep-previous rule: when no deck
qualifies the previous master stays. -/
def newMaster (l : List (ℤ × ActiveDeckInfo)) (active : ℤ) : ℤ :=
  let best := electBest l active
  if best = 0 ∧ active ≠ 0 then active else best

/-! ### Transition pool (handlers.go `pickRandomTransition`, `fillTransitionPool`,
`broadcastTransitionPool`, `playAndRefillTransition`) -/

/-- Pool slot read (the pool list always has length 3). -/
def poolGet (p : List (Option PoolEntry)) (i : Nat) : Option PoolEntry :=
  p.getD i none

/-- The paths held by the slots other than `i` (the exclusion list built
before a refill). -/
def excludeOthers (p : List (Option PoolEntry)) (i : Nat) : List String :=
  p.enum.filterMap (fun je =>
    if je.1 ≠ i then je.2.map (fun e => e.video) else none)

/-- Draw the next random oracle value, reduced modulo `n`
(model of `rand.IntN n`). -/
def rngNext (st : HState) (n : Nat) : Nat × HState :=
  match st.rng with
  | [] => (0, st)
  | r :: rest => (r % n, { st with rng := rest })

/-- Model of `pickRandomTransition`: pick from the transition library,
excluding the given paths unless that would empty the pool of choices
(the config-directory re-check is not modelled; the library is supplied
by `Env`). -/
def pickRandomTransition (videos : List VideoFile) (excludePaths : List String)
    (r : Nat) : Option PoolEntry :=
  if videos.isEmpty then none
  else
    let vids :=
      if excludePaths ≠ [] ∧ 1 < videos.length then
        let filtered := videos.filter (fun v => !(excludePaths.contains v.path))
        if filtered ≠ [] then filtered else videos
      else videos
    match vids with
    | [] => none
    | v0 :: _ => some ⟨(vids.getD (r % vids.length) v0).path, (vids.getD (r % vids.length) v0).bpm⟩

/-- Fill slot `i` when it is empty. -/
def fillSlot (env : Env) (st : HState) (i : Nat) : HState :=
  if poolGet st.transitionPool i = none then
    let exclude := excludeOthers st.transitionPool i
    let rs := rngNext st env.transitionVideos.length
    { rs.2 with transitionPool :=
        rs.2.transitionPool.set i (pickRandomTransition env.transitionVideos exclude rs.1) }
  else st

/-- Model of `fillTransitionPool`: fill every empty slot in order. -/
def fillTransitionPool (env : Env) (st : HState) : HState :=
  fillSlot env (fillSlot env (fillSlot env st 0) 1) 2

/-- Model of `playAndRefillTransition`: publish the play command for the
cursor slot, advance the cursor, refill the used slot and publish the
updated pool. -/
def playAndRefillTransition (env : Env) (st : HState) : HState × List SSEEvent :=
  let slot := st.transitionNextSlot
  let playEv := SSEEvent.transitionPlay slot env.inCSS env.outCSS
  let st1 := { st with transitionNextSlot := (slot + 1) % 3 }
  let exclude := excludeOthers st1.transitionPool slot
  let rs := rngNext st1 env.transitionVideos.length
  let st2 := { rs.2 with transitionPool :=
      rs.2.transitionPool.set slot (pickRandomTransition env.transitionVideos exclude rs.1) }
  (st2, [playEv, SSEEvent.transitionPool st2.transitionPool])

/-- The per-deck record written by `checkActiveDeckChange` before the
election. -/
def infoOf (s : DeckState) (matched : Option VideoFile) : ActiveDeckInfo :=
  ⟨s.isAudible, s.isPlaying, s.volume, matched.isSome⟩

/-- Model of `checkActiveDeckChange`: update the per-deck record, elect,
and on a handover publish the transition events. -/
def checkActiveDeckChange (env : Env) (st : HState) (s : DeckState)
    (matched : Option VideoFile) : HState × List SSEEvent :=
  let states1 := assocSet st.activeDeckStates s.deck (infoOf s matched)
  let best := newMaster states1 st.activeDeck
  if best = st.activeDeck then ({ st with activeDeckStates := states1 }, [])
  else
    let prev := st.activeDeck
    let st1 := { st with activeDeckStates := states1, activeDeck := best }
    if prev = 0 ∧ best ≠ 0 then
      let st2 := fillTransitionPool env st1
      (st2, [SSEEvent.transitionPool st2.transitionPool])
    else if prev ≠ 0 ∧ best ≠ 0 then
      playAndRefillTransition env st1
    else (st1, [])

/-! ### Video position tracker (HandleDeckUpdate, the level ≥ 2 block) -/

/-- The playback-rate computation of the tracker: `pitch/100`, scaled by
`deckBPM/videoBPM` when both BPMs are known, clamped to `[0.25, 4.0]`. -/
def computeRate (pitch deckBPM videoBPM : ℚ) : ℚ :=
  let rate0 := pitch / 100
  let rate1 := if 0 < deckBPM ∧ 0 < videoBPM then (pitch / 100) * (deckBPM / videoBPM) else rate0
  if rate1 < 1/4 then 1/4 else if 4 < rate1 then 4 else rate1

/-- The playback rate as the specification words it:
`clamp((pitch/100)·(deckBPM/videoBPM), 0.25, 4.0)` when both BPMs are
known, else `pitch/100` clamped identically. -/
def specRate (pitch deckBPM videoBPM : ℚ) : ℚ :=
  if 0 < deckBPM ∧ 0 < videoBPM then
    min 4 (max (1/4) ((pitch / 100) * (deckBPM / videoBPM)))
  else min 4 (max (1/4) (pitch / 100))

/-- The zero value of `deckVideoSync` (`&deckVideoSync{}`). -/
def zeroSync : DeckVideoSync := ⟨"", 0, 0, 0, false⟩

/-- One tracker update: reset on video change, accumulate at the previous
rate while playing, then record the new rate, clock and playing flag.
Returns the new record and the published `videoElapsedMs`. -/
def videoSyncUpdate (vsOpt : Option DeckVideoSync) (now : ℚ) (s : DeckState)
    (matched : VideoFile) : DeckVideoSync × ℚ :=
  let vs := vsOpt.getD zeroSync
  let vs1 := if vs.videoPath ≠ matched.path then
      (⟨matched.path, now, 0, 1, false⟩ : DeckVideoSync)
    else vs
  let vs2 := if vs1.playing ∧ vs1.lastUpdate ≠ 0 then
      { vs1 with accumulatedMs := vs1.accumulatedMs + (now - vs1.lastUpdate) * vs1.lastRate }
    else vs1
  let rate := computeRate s.pitch s.bpm matched.bpm
  let vs3 := { vs2 with lastRate := rate, lastUpdate := now, playing := s.isPlaying }
  (vs3, vs3.accumulatedMs)

/-- The published `videoElapsedMs` values of a run of consecutive tracker
updates for one deck. -/
def syncTrace (vsOpt : Option DeckVideoSync) : List (ℚ × DeckState × VideoFile) → List ℚ
  | [] => []
  | (now, s, m) :: rest =>
    let r := videoSyncUpdate vsOpt now s m
    r.2 :: syncTrace (some r.1) rest

/-! ### Deck 3/4 visibility (handlers.go `updateDeckVisibility`) -/

/-- Model of `updateDeckVisibility`.  A start-playing sample cancels any
pending hide timer and shows the deck; a paused sample arms the 60 s
timer (its asynchronous expiry is not part of the request path and is
modelled only as the armed flag). -/
def updateDeckVisibility (st : HState) (deck : ℤ) (isPlaying : Bool) :
    HState × List SSEEvent :=
  if isPlaying then
    let st1 := { st with deckHideTimerSet := st.deckHideTimerSet.filter (fun d => d ≠ deck) }
    if (assocGet st1.deckVisible deck).getD false = false then
      ({ st1 with deckVisible := assocSet st1.deckVisible deck true },
       [SSEEvent.deckVisibility deck true])
    else (st1, [])
  else
    if (assocGet st.deckVisible deck).getD false = false ∨ st.deckHideTimerSet.contains deck then
      (st, [])
    else ({ st with deckHideTimerSet := deck :: st.deckHideTimerSet }, [])

/-! ### The deck-update handler (handlers.go `HandleDeckUpdate`) -/

/-- The forced-override check at the head of `HandleDeckUpdate`: a stale
override (recorded filename differs from the sample's) is deleted; a
fresh one short-circuits the matcher. -/
def forcedCheck (st : HState) (s : DeckState) : Option VideoFile × HState :=
  match assocGet st.forcedVideo s.deck with
  | some fv =>
    if (assocGet st.forcedFilename s.deck).getD "" ≠ s.filename then
      (none, { st with forcedVideo := assocDel st.forcedVideo s.deck,
                       forcedFilename := assocDel st.forcedFilename s.deck })
    else (some fv, st)
  | none => (none, st)

/-- The matched video of a deck sample: the still-valid forced override
if any, else the tiered matcher. -/
def ingestMatched (st : HState) (s : DeckState) : Option VideoFile × HState :=
  let fc := forcedCheck st s
  match fc.1 with
  | some fv => (some fv, fc.2)
  | none =>
    let mv := matchVideo fc.2.matcher s.filename s.bpm
    (mv.1, { fc.2 with matcher := mv.2 })

/-- The level ≥ 2 video-position stage of `HandleDeckUpdate`. -/
def syncStage (env : Env) (st : HState) (s : DeckState) (matched : Option VideoFile) :
    Option ℚ × HState :=
  match matched with
  | some m =>
    if 2 ≤ m.matchLevel then
      let r := videoSyncUpdate (assocGet st.videoSync s.deck) env.now s m
      (some r.2, { st with videoSync := assocSet st.videoSync s.deck r.1 })
    else (none, st)
  | none => (none, st)

/-- Model of `HandleDeckUpdate` (after JSON decoding): drop samples while
the analyser runs, range-check the deck, resolve the forced override and
the match, update the tracker, run the master election (with any
transition events), publish the deck-update, then handle deck 3/4
visibility. -/
def handleDeckUpdate (env : Env) (st : HState) (s : DeckState) :
    HStatus × List SSEEvent × HState :=
  if st.analysing then (HStatus.noContent, [], st)
  else if s.deck < 1 ∨ 4 < s.deck then (HStatus.noContent, [], st)
  else
    let ms := ingestMatched st s
    let es := syncStage env ms.2 s ms.1
    let ce := checkActiveDeckChange env es.2 s ms.1
    let du := SSEEvent.deckUpdate s ms.1 es.1
    let vis :=
      if 2 < s.deck ∧ s.deck ≤ 4 then updateDeckVisibility ce.1 s.deck s.isPlaying
      else (ce.1, [])
    (HStatus.noContent, ce.2 ++ du :: vis.2, vis.1)

/-! ### Concrete example inputs used by witnesses and counterexamples -/

/-- An empty matcher. -/
def emptyMatcher : MatcherState := ⟨[], [], []⟩

/-- A one-video index: `a.mp4`, no BPM. -/
def ixA : IndexedFile :=
  ⟨{ name := "a.mp4", path := "/videos/a.mp4", bpm := 0,
     matchType := "", matchLevel := 0, similarity := 0 }, "a"⟩

/-- A matcher indexing only `a.mp4`. -/
def matcherA : MatcherState := ⟨[ixA], [], []⟩

/-- A 160-BPM video `ambient.mp4` (no BPM hint in the filename), used to
exercise the half-time correction's cache persistence. -/
def vAmb : VideoFile :=
  { name := "ambient.mp4", path := "/videos/ambient.mp4", bpm := 160,
    matchType := "", matchLevel := 0, similarity := 0 }

/-- A matcher indexing only `ambient.mp4` at 160 BPM, with an empty BPM
cache and no correction recorded. -/
def matcherAmb : MatcherState := ⟨[⟨vAmb, "ambient"⟩], [], []⟩

/-- A quiescent handler state with no master and an empty pool. -/
def hsQuiescent : HState :=
  { matcher := matcherA
    activeDeck := 0
    activeDeckStates := []
    transitionPool := [none, none, none]
    transitionNextSlot := 0
    videoSync := []
    forcedVideo := []
    forcedFilename := []
    deckVisible := []
    deckHideTimerSet := []
    analysing := false
    rng := [0, 1, 2] }

/-- A handler state in which deck 1 is master at fader volume 0. -/
def hsDeck1Master : HState :=
  { hsQuiescent with
    activeDeck := 1
    activeDeckStates := [(1, ⟨true, true, 0, true⟩)] }

/-- The exact (level-0) match of `a.mp4` in `matcherA`. -/
def vA0 : VideoFile :=
  { name := "a.mp4", path := "/videos/a.mp4", bpm := 0,
    matchType := "exact", matchLevel := 0, similarity := 1 }

/-- A sample for deck 2: audible, playing, full volume, song `a.mp4`. -/
def sampleDeck2 : DeckState :=
  { deck := 2, isAudible := true, isPlaying := true, volume := 1,
    elapsedMs := 5000, bpm := 0, filename := "a.mp4", pitch := 100 }

/-- A sample for a fifth deck. -/
def sampleDeck5 : DeckState :=
  { sampleDeck2 with deck := 5 }

/-- A sample for deck 0. -/
def sampleDeck0 : DeckState :=
  { sampleDeck2 with deck := 0 }

/-- A video whose stored BPM (70) is half the deck's 140. -/
def vid70 : VideoFile :=
  { name := "slow.mp4", path := "/videos/slow.mp4", bpm := 70,
    matchType := "", matchLevel := 0, similarity := 0 }

/-- A video whose stored BPM (68) is close to but not half of 140. -/
def vid68 : VideoFile :=
  { name := "near.mp4", path := "/videos/near.mp4", bpm := 68,
    matchType := "", matchLevel := 0, similarity := 0 }

/-- A matcher indexing `vid70`. -/
def matcher70 : MatcherState := ⟨[⟨vid70, "slow"⟩], [], []⟩

/-- A matcher indexing `vid68`. -/
def matcher68 : MatcherState := ⟨[⟨vid68, "near"⟩], [], []⟩

/-- A deck record that is audible, playing, matched, at full volume. -/
def infoAll : ActiveDeckInfo := ⟨true, true, 1, true⟩

/-- An environment with one transition video and fixed CSS picks. -/
def envEx : Env :=
  { now := 1000
    transitionVideos :=
      [{ name := "t.mp4", path := "/tvideos/t.mp4", bpm := 120,
         matchType := "", matchLevel := 0, similarity := 0 }]
    inCSS := "in"
    outCSS := "out" }

/-! # Theorems -/

/-! ## C3: hub back-pressure -/

set_option maxRecDepth 4000 in
/-- C3 (counterexample): with a full 256-message queue, publishing a new
message leaves the queue unchanged (and records a warning) — the new
message is not enqueued and the oldest message is not dropped, so the
claimed drop-oldest behaviour is false. -/
theorem C3_counterexample :
    hubSend (List.replicate 256 0) 1 = (List.replicate 256 0, true) ∧
      (List.replicate 256 0).drop 1 ++ [1] ≠ List.replicate 256 0 := by
  constructor
  · have hn : ¬ ((List.replicate 256 (0 : Nat)).length < hubCapacity) := by
      rw [List.length_replicate]; decide
    unfold hubSend
    rw [if_neg hn]
  · intro h
    have h2 := congrArg List.getLast? h
    rw [List.getLast?_concat] at h2
    have e : List.replicate 256 (0 : Nat) = List.replicate 255 0 ++ [0] := by decide
    rw [e, List.getLast?_concat] at h2
    injection h2 with h3
    exact absurd h3 (by decide)

/-- C3 (amended): each subscription queue is FIFO and bounded at 256; a
publish that finds room appends at the tail, a publish that finds the
queue full drops the NEW message (queue unchanged) and records a
warning, and broadcasting never removes a subscriber. -/
theorem C3_hub_bounded_fifo (q : List Nat) (m : Nat) (clients : List (List Nat)) :
    (q.length < hubCapacity → hubSend q m = (q ++ [m], false)) ∧
      (hubCapacity ≤ q.length → hubSend q m = (q, true)) ∧
      (hubBroadcast clients m).length = clients.length := by
  refine ⟨fun h => by simp [hubSend, h], fun h => ?_, by simp [hubBroadcast]⟩
  simp [hubSend, Nat.not_lt.mpr h]

/-- Witness for C3: a queue of one message accepts a publish at the tail;
a full queue of 256 zeros drops the incoming message. -/
theorem C3_hub_bounded_fifo_witness :
    hubSend [5] 7 = ([5, 7], false) ∧
      hubSend (List.replicate 256 0) 3 = (List.replicate 256 0, true) := by
  constructor
  · exact (C3_hub_bounded_fifo [5] 7 []).1 (by decide)
  · exact (C3_hub_bounded_fifo (List.replicate 256 0) 3 []).2.1
      (by rw [List.length_replicate]; decide)

/-! ## C5: playback rate -/

/-- The source's two-sided clamp equals `min 4 (max (1/4) x)`. -/
theorem clamp_eq_minmax (x : ℚ) :
    (if x < 1/4 then (1/4 : ℚ) else if 4 < x then 4 else x) = min 4 (max (1/4) x) := by
  rcases lt_or_le x (1/4) with h | h
  · rw [if_pos h, max_eq_left h.le, min_eq_right (by norm_num)]
  · rw [if_neg (not_lt.mpr h), max_eq_right h]
    rcases lt_or_le 4 x with h4 | h4
    · rw [if_pos h4, min_eq_left h4.le]
    · rw [if_neg (not_lt.mpr h4), min_eq_right h4]

/-- C5 (counterexample): at pitch 25 %, deck 200 BPM, video 50 BPM the
tracker's rate is (25/100)·(200/50) = 1.0, not the claimed clamp to
4.0. -/
theorem C5_counterexample : computeRate 25 200 50 = 1 ∧ (1 : ℚ) ≠ 4 := by
  constructor
  · norm_num [computeRate]
  · decide

/-- C5 (amended): the tracker's rate is
`clamp((pitch/100)·(deckBPM/videoBPM), 0.25, 4.0)` when both BPMs are
known (> 0) and `clamp(pitch/100, 0.25, 4.0)` otherwise, and this is the
rate the tracker records on every update; at pitch 25 %, deck 200 BPM,
video 50 BPM the rate is 1.0 (inside the bounds, no clamping). -/
theorem C5_rate_formula :
    (∀ p d v : ℚ, computeRate p d v = specRate p d v) ∧
      (∀ (vsOpt : Option DeckVideoSync) (now : ℚ) (s : DeckState) (m : VideoFile),
        (videoSyncUpdate vsOpt now s m).1.lastRate = computeRate s.pitch s.bpm m.bpm) ∧
      computeRate 25 200 50 = 1 := by
  refine ⟨fun p d v => ?_, fun vsOpt now s m => ?_, by norm_num [computeRate]⟩
  · unfold computeRate specRate
    by_cases hc : 0 < d ∧ 0 < v
    · simp only [if_pos hc]
      exact clamp_eq_minmax _
    · simp only [if_neg hc]
      exact clamp_eq_minmax _
  · simp [videoSyncUpdate]

/-! ## C6: deck range checks -/

/-- C6 (counterexample): a deck-5 sample is handled exactly like a deck-0
sample — success-without-content, no event published, and the handler
state entirely unchanged; in particular no "too many decks" indicator is
updated anywhere in the server. -/
theorem C6_counterexample :
    handleDeckUpdate envEx hsDeck1Master sampleDeck5 =
        (HStatus.noContent, [], hsDeck1Master) ∧
      handleDeckUpdate envEx hsDeck1Master sampleDeck0 =
        (HStatus.noContent, [], hsDeck1Master) := by
  constructor
  · rfl
  · rfl

/-- C6 (amended): every sample with deck < 1 or deck > 4 is discarded
with a success-without-content response, no event is published and no
state is updated; the "too many decks" banner is a client-side feature
that the server never feeds (no deck-update is published for decks
5+). -/
theorem C6_out_of_range_discarded (env : Env) (st : HState) (s : DeckState)
    (hb : st.analysing = false) (h : s.deck < 1 ∨ 4 < s.deck) :
    handleDeckUpdate env st s = (HStatus.noContent, [], st) := by
  unfold handleDeckUpdate
  simp [hb, h]

/-- Witness for C6: a deck −3 sample against the quiescent state is a
pure no-op. -/
theorem C6_out_of_range_discarded_witness :
    handleDeckUpdate envEx hsQuiescent { sampleDeck2 with deck := -3 } =
      (HStatus.noContent, [], hsQuiescent) :=
  C6_out_of_range_discarded envEx hsQuiescent _ (by decide) (by decide)

/-! ## C8: scanned BPM range -/

/-- C8 (counterexample): scanning a directory containing
`track_500bpm.mp4` indexes it with BPM 500 taken verbatim from the
filename hint, outside [60, 200]. -/
theorem C8_counterexample :
    (scanIndex ["track_500bpm.mp4"] "/videos/" (some []) (fun _ => 0)).map
        (fun ix => ix.file.bpm) = [500] ∧
      ¬((60 : ℚ) ≤ 500 ∧ (500 : ℚ) ≤ 200) := by
  have h1 : parseBPMFromName "track_500bpm.mp4" = fmtScanGo ['5', '0', '0'] 0 1 false := rfl
  have h2 : parseBPMFromName "track_500bpm.mp4" = 500 := by
    rw [h1]
    simp +decide only [fmtScanGo]
    norm_num [show '5'.toNat - '0'.toNat = 5 from by decide,
      show '0'.toNat - '0'.toNat = 0 from by decide]
  constructor
  · simp +decide only [scanIndex, List.filterMap]
    rw [h2]
    norm_num
  · decide

/-- C8 (amended): after a scan, every indexed video with a non-zero BPM
carries the filename-hint BPM verbatim, or a BPM-cache value verbatim,
or a fresh audio-analysis value — and only the last, whose output is 0
or folded into [60, 200], is guaranteed to lie in [60.0, 200.0].  The
cache source is real and can itself be out of range: once the half-time
correction of the 160-BPM `ambient.mp4` against deck BPM 320 persists
320 to the cache, the next scan indexes `ambient.mp4` — whose filename
carries no hint — at BPM 320, outside [60, 200]. -/
theorem C8_scan_bpm_range :
    (∀ (entries : List String) (pfx : String) (cache : Option (List (String × ℚ)))
        (analyse : String → ℚ),
        (∀ n, analyse n = 0 ∨ (60 ≤ analyse n ∧ analyse n ≤ 200)) →
        ∀ ix ∈ scanIndex entries pfx cache analyse, 0 < ix.file.bpm →
          ix.file.bpm = parseBPMFromName ix.file.name ∨
            cacheGet (cache.getD []) (pfx ++ ix.file.name) = some ix.file.bpm ∨
            (60 ≤ ix.file.bpm ∧ ix.file.bpm ≤ 200)) ∧
      ((scanIndex ["ambient.mp4"] "/videos/"
          (some (correctHalfTimeBPM matcherAmb vAmb 320).2.bpmCache)
          (fun _ => 0)).map (fun ix => ix.file.bpm) = [320] ∧
        parseBPMFromName "ambient.mp4" = 0 ∧
        ¬((60 : ℚ) ≤ 320 ∧ (320 : ℚ) ≤ 200)) := by
  constructor
  · intro entries pfx cache analyse hA ix hix hpos
    unfold scanIndex at hix
    rw [List.mem_filterMap] at hix
    obtain ⟨name, _, heq⟩ := hix
    by_cases hext : lowerStr (extOf name) = ".mp4"
    · rw [if_pos hext, Option.some_inj] at heq
      by_cases hb : parseBPMFromName name ≤ 0 ∧ cache.isSome = true
      · rcases hc : cacheGet (cache.getD []) (pfx ++ name) with _ | cv
        · rcases hA name with h0 | hrange
          · exfalso
            rw [← heq] at hpos
            simp only [if_pos hb, analyseBPMOf, hc, h0] at hpos
            exact lt_irrefl 0 hpos
          · right; right
            rw [← heq]
            simpa [if_pos hb, analyseBPMOf, hc] using hrange
        · right; left
          rw [← heq]
          simp only [if_pos hb, analyseBPMOf, hc]
      · left
        rw [← heq]
        simp [if_neg hb]
    · rw [if_neg hext] at heq
      exact absurd heq (by simp)
  · have hcond : ¬ (vAmb.bpm ≤ 0 ∨ (320 : ℚ) ≤ 0) := by norm_num [vAmb]
    have hc2 : ¬ (matcherAmb.bpmCorrected.contains vAmb.path = true) := by decide
    have hres : correctHalfTimeBPM matcherAmb vAmb 320 =
        ({ vAmb with bpm := vAmb.bpm * 2 },
          updateBPM { matcherAmb with bpmCorrected := vAmb.path :: matcherAmb.bpmCorrected }
            vAmb.path (vAmb.bpm * 2)) := by
      unfold correctHalfTimeBPM
      rw [if_neg hcond, if_neg hc2]
      show (if |vAmb.bpm * 2 - 320| < |vAmb.bpm - 320| ∧ |vAmb.bpm * 2 - 320| ≤ 3
          then _ else _) = _
      rw [if_pos (by norm_num [vAmb])]
    have hcache : (correctHalfTimeBPM matcherAmb vAmb 320).2.bpmCache =
        [("/videos/ambient.mp4", 320)] := by
      rw [hres]
      simp only [updateBPM, cacheSet, matcherAmb, vAmb]
      norm_num
    refine ⟨?_, rfl, by decide⟩
    rw [hcache]
    decide

/-- Witness for C8: the one scanned video `a_128bpm.mp4` (whose BPM 128
came from the filename hint) satisfies the amended source trichotomy. -/
theorem C8_scan_bpm_range_witness :
    ((scanIndex ["a_128bpm.mp4"] "/videos/" none (fun _ => 0)).getD 0 ixA).file.bpm =
        parseBPMFromName
          ((scanIndex ["a_128bpm.mp4"] "/videos/" none (fun _ => 0)).getD 0 ixA).file.name ∨
      cacheGet ((none : Option (List (String × ℚ))).getD []) ("/videos/" ++
          ((scanIndex ["a_128bpm.mp4"] "/videos/" none (fun _ => 0)).getD 0 ixA).file.name) =
        some ((scanIndex ["a_128bpm.mp4"] "/videos/" none (fun _ => 0)).getD 0 ixA).file.bpm ∨
      (60 ≤ ((scanIndex ["a_128bpm.mp4"] "/videos/" none (fun _ => 0)).getD 0 ixA).file.bpm ∧
        ((scanIndex ["a_128bpm.mp4"] "/videos/" none (fun _ => 0)).getD 0 ixA).file.bpm ≤ 200) := by
  have h1 : parseBPMFromName "a_128bpm.mp4" = fmtScanGo ['1', '2', '8'] 0 1 false := rfl
  have h128 : parseBPMFromName "a_128bpm.mp4" = 128 := by
    rw [h1]
    simp +decide only [fmtScanGo]
    norm_num [show '1'.toNat - '0'.toNat = 1 from by decide,
      show '2'.toNat - '0'.toNat = 2 from by decide,
      show '8'.toNat - '0'.toNat = 8 from by decide]
  have hlist : scanIndex ["a_128bpm.mp4"] "/videos/" none (fun _ => 0) =
      [⟨⟨"a_128bpm.mp4", "/videos/a_128bpm.mp4", 128, "", 0, 0⟩, "a_128bpm"⟩] := by
    simp +decide only [scanIndex, List.filterMap]
    rw [h128]
    norm_num
    constructor
    · decide
    · decide
  exact C8_scan_bpm_range.1 ["a_128bpm.mp4"] "/videos/" none (fun _ => 0)
    (fun _ => Or.inl rfl)
    ((scanIndex ["a_128bpm.mp4"] "/videos/" none (fun _ => 0)).getD 0 ixA)
    (by rw [hlist]; exact List.mem_cons_self _ _)
    (by rw [hlist]; norm_num)

/-! ## C1: handover event order -/

/-- The forced-override check touches only the override maps. -/
theorem forcedCheck_preserves (st : HState) (s : DeckState) :
    (forcedCheck st s).2.activeDeck = st.activeDeck ∧
      (forcedCheck st s).2.activeDeckStates = st.activeDeckStates ∧
      (forcedCheck st s).2.transitionPool = st.transitionPool ∧
      (forcedCheck st s).2.transitionNextSlot = st.transitionNextSlot := by
  unfold forcedCheck
  split
  · split_ifs <;> exact ⟨rfl, rfl, rfl, rfl⟩
  · exact ⟨rfl, rfl, rfl, rfl⟩

/-- Resolving the match touches neither the election state nor the
pool. -/
theorem ingestMatched_preserves (st : HState) (s : DeckState) :
    (ingestMatched st s).2.activeDeck = st.activeDeck ∧
      (ingestMatched st s).2.activeDeckStates = st.activeDeckStates ∧
      (ingestMatched st s).2.transitionPool = st.transitionPool ∧
      (ingestMatched st s).2.transitionNextSlot = st.transitionNextSlot := by
  have hf := forcedCheck_preserves st s
  unfold ingestMatched
  dsimp only
  split
  · exact ⟨hf.1, hf.2.1, hf.2.2.1, hf.2.2.2⟩
  · exact ⟨hf.1, hf.2.1, hf.2.2.1, hf.2.2.2⟩

/-- The tracker stage touches only the video-sync map. -/
theorem syncStage_preserves (env : Env) (st : HState) (s : DeckState)
    (matched : Option VideoFile) :
    (syncStage env st s matched).2.activeDeck = st.activeDeck ∧
      (syncStage env st s matched).2.activeDeckStates = st.activeDeckStates ∧
      (syncStage env st s matched).2.transitionPool = st.transitionPool ∧
      (syncStage env st s matched).2.transitionNextSlot = st.transitionNextSlot := by
  unfold syncStage
  split
  · split_ifs <;> exact ⟨rfl, rfl, rfl, rfl⟩
  · exact ⟨rfl, rfl, rfl, rfl⟩

/-- Drawing from the random oracle changes only the oracle stream. -/
theorem rngNext_activeDeck (st : HState) (n : Nat) :
    (rngNext st n).2.activeDeck = st.activeDeck := by
  unfold rngNext
  split <;> rfl

/-- Playing a transition does not change the elected master. -/
theorem playAndRefill_activeDeck (env : Env) (st : HState) :
    (playAndRefillTransition env st).1.activeDeck = st.activeDeck := by
  unfold playAndRefillTransition
  dsimp only
  exact rngNext_activeDeck _ _

/-- `playAndRefillTransition` publishes exactly the play command for the
current cursor slot followed by the refreshed pool. -/
theorem playAndRefill_events (env : Env) (st : HState) :
    ∃ pool, (playAndRefillTransition env st).2 =
      [SSEEvent.transitionPlay st.transitionNextSlot env.inCSS env.outCSS,
        SSEEvent.transitionPool pool] := by
  unfold playAndRefillTransition
  dsimp only
  exact ⟨_, rfl⟩

/-- The visibility step publishes only `deck-visibility` events. -/
theorem updateDeckVisibility_events (st : HState) (dk : ℤ) (p : Bool) :
    ∀ ev ∈ (updateDeckVisibility st dk p).2,
      ∃ d2 v2, ev = SSEEvent.deckVisibility d2 v2 := by
  unfold updateDeckVisibility
  dsimp only
  split_ifs <;> intro ev hev <;>
    first
      | exact absurd hev (List.not_mem_nil _)
      | (rw [List.mem_singleton] at hev
         exact ⟨dk, true, hev⟩)

/-- The visibility step does not change the elected master. -/
theorem updateDeckVisibility_activeDeck (st : HState) (dk : ℤ) (p : Bool) :
    (updateDeckVisibility st dk p).1.activeDeck = st.activeDeck := by
  unfold updateDeckVisibility
  dsimp only
  split_ifs <;> rfl

/-- On a master handover (previous and new master both non-zero and
different), `checkActiveDeckChange` publishes exactly `transition-play`
for the cursor slot then the refreshed `transition-pool`, and installs
the new master. -/
theorem checkActive_handover (env : Env) (st : HState) (s : DeckState)
    (m : Option VideoFile) (b : ℤ)
    (hbdef : b = newMaster (assocSet st.activeDeckStates s.deck (infoOf s m)) st.activeDeck)
    (hprev : st.activeDeck ≠ 0) (hbz : b ≠ 0) (hneq : b ≠ st.activeDeck) :
    (∃ pool, (checkActiveDeckChange env st s m).2 =
        [SSEEvent.transitionPlay st.transitionNextSlot env.inCSS env.outCSS,
          SSEEvent.transitionPool pool]) ∧
      (checkActiveDeckChange env st s m).1.activeDeck = b := by
  unfold checkActiveDeckChange
  dsimp only
  rw [← hbdef]
  rw [if_neg hneq]
  rw [if_neg (fun hc => hprev hc.1)]
  rw [if_pos ⟨hprev, hbz⟩]
  constructor
  · obtain ⟨pool, hp⟩ := playAndRefill_events env
      { st with activeDeckStates := assocSet st.activeDeckStates s.deck (infoOf s m),
                activeDeck := b }
    exact ⟨pool, hp⟩
  · rw [playAndRefill_activeDeck]

/-- C1: for every deck sample whose processing causes a master handover,
the handler publishes, in this strict order, `transition-play` (for the
current cursor slot), the refreshed `transition-pool`, and then the
`deck-update` carrying that sample; any remaining events are
`deck-visibility` only, and the election has completed (the new master
is installed) in the resulting state. -/
theorem C1_handover_event_order (env : Env) (st : HState) (s : DeckState)
    (m : Option VideoFile) (st2 : HState) (b : ℤ)
    (hb : st.analysing = false)
    (hd1 : 1 ≤ s.deck) (hd2 : s.deck ≤ 4)
    (hm : ingestMatched st s = (m, st2))
    (hbdef : b = newMaster (assocSet st.activeDeckStates s.deck (infoOf s m)) st.activeDeck)
    (hprev : st.activeDeck ≠ 0) (hbz : b ≠ 0) (hneq : b ≠ st.activeDeck) :
    (∃ pool e rest,
        (handleDeckUpdate env st s).2.1 =
          SSEEvent.transitionPlay st.transitionNextSlot env.inCSS env.outCSS ::
            SSEEvent.transitionPool pool :: SSEEvent.deckUpdate s m e :: rest ∧
          ∀ ev ∈ rest, ∃ dk vis, ev = SSEEvent.deckVisibility dk vis) ∧
      (handleDeckUpdate env st s).2.2.activeDeck = b := by
  have hb2 : ¬(st.analysing = true) := by rw [hb]; simp
  have hrange : ¬(s.deck < 1 ∨ 4 < s.deck) := by
    push_neg
    exact ⟨hd1, hd2⟩
  have hpi := ingestMatched_preserves st s
  rw [hm] at hpi
  have hps := syncStage_preserves env st2 s m
  have hstates : (syncStage env st2 s m).2.activeDeckStates = st.activeDeckStates := by
    rw [hps.2.1]
    exact hpi.2.1
  have hactive : (syncStage env st2 s m).2.activeDeck = st.activeDeck := by
    rw [hps.1]
    exact hpi.1
  have hslot : (syncStage env st2 s m).2.transitionNextSlot = st.transitionNextSlot := by
    rw [hps.2.2.2]
    exact hpi.2.2.2
  have hca := checkActive_handover env (syncStage env st2 s m).2 s m b
    (by rw [hstates, hactive]; exact hbdef)
    (by rw [hactive]; exact hprev) hbz
    (by rw [hactive]; exact hneq)
  obtain ⟨⟨pool, hpe⟩, hact⟩ := hca
  unfold handleDeckUpdate
  rw [if_neg hb2, if_neg hrange]
  dsimp only
  rw [hm]
  dsimp only
  by_cases hvis : 2 < s.deck ∧ s.deck ≤ 4
  · rw [if_pos hvis]
    refine ⟨⟨pool, (syncStage env st2 s m).1,
      (updateDeckVisibility (checkActiveDeckChange env (syncStage env st2 s m).2 s m).1
        s.deck s.isPlaying).2, ?_, ?_⟩, ?_⟩
    · rw [hpe, hslot]
      rfl
    · exact updateDeckVisibility_events _ _ _
    · rw [updateDeckVisibility_activeDeck]
      exact hact
  · rw [if_neg hvis]
    refine ⟨⟨pool, (syncStage env st2 s m).1, [], ?_, ?_⟩, ?_⟩
    · rw [hpe, hslot]
      rfl
    · intro ev hev
      exact absurd hev (List.not_mem_nil _)
    · exact hact

/-- Witness for C1: deck 2 (audible, playing, full volume, matched)
takes over from master deck 1: the handler publishes transition-play,
then the refreshed pool, then the deck-update, and installs deck 2 as
master. -/
theorem C1_handover_event_order_witness :
    (∃ pool e rest,
        (handleDeckUpdate envEx hsDeck1Master sampleDeck2).2.1 =
          SSEEvent.transitionPlay hsDeck1Master.transitionNextSlot envEx.inCSS envEx.outCSS ::
            SSEEvent.transitionPool pool ::
              SSEEvent.deckUpdate sampleDeck2 (some vA0) e :: rest ∧
          ∀ ev ∈ rest, ∃ dk vis, ev = SSEEvent.deckVisibility dk vis) ∧
      (handleDeckUpdate envEx hsDeck1Master sampleDeck2).2.2.activeDeck = 2 :=
  C1_handover_event_order envEx hsDeck1Master sampleDeck2 (some vA0) hsDeck1Master 2
    (by decide) (by decide) (by decide) (by decide) (by decide)
    (by decide) (by decide) (by decide)

/-! ## C2: master election -/

/-- One election step either keeps the accumulator or moves to a
qualified deck's pair. -/
theorem electStep_cases (active : ℤ) (acc : ℤ × ℚ) (p : ℤ × ActiveDeckInfo) :
    electStep active acc p = acc ∨
      (qualB p.2 = true ∧ electStep active acc p = (p.1, p.2.volume)) := by
  unfold electStep
  split_ifs with h
  · exact Or.inr ⟨h.1, rfl⟩
  · exact Or.inl rfl

/-- The election fold either returns its accumulator or the pair of some
qualified member. -/
theorem foldl_elect_cases (active : ℤ) :
    ∀ (l : List (ℤ × ActiveDeckInfo)) (acc : ℤ × ℚ),
      l.foldl (electStep active) acc = acc ∨
        ∃ p ∈ l, qualB p.2 = true ∧ l.foldl (electStep active) acc = (p.1, p.2.volume) := by
  intro l
  induction l with
  | nil => intro acc; exact Or.inl rfl
  | cons p rest ih =>
    intro acc
    rw [List.foldl_cons]
    rcases electStep_cases active acc p with h | ⟨hq, h⟩
    · rw [h]
      rcases ih acc with h2 | ⟨q, hq2, hq3, h2⟩
      · exact Or.inl h2
      · exact Or.inr ⟨q, List.mem_cons_of_mem _ hq2, hq3, h2⟩
    · rw [h]
      rcases ih (p.1, p.2.volume) with h2 | ⟨q, hq2, hq3, h2⟩
      · exact Or.inr ⟨p, List.mem_cons_self _ _, hq, h2⟩
      · exact Or.inr ⟨q, List.mem_cons_of_mem _ hq2, hq3, h2⟩

/-- The election fold's best volume never decreases and ends at least as
high as every qualified member's volume. -/
theorem foldl_elect_ge (active : ℤ) :
    ∀ (l : List (ℤ × ActiveDeckInfo)) (acc : ℤ × ℚ),
      acc.2 ≤ (l.foldl (electStep active) acc).2 ∧
        ∀ p ∈ l, qualB p.2 = true → p.2.volume ≤ (l.foldl (electStep active) acc).2 := by
  intro l
  induction l with
  | nil =>
    intro acc
    exact ⟨le_refl _, by simp⟩
  | cons p rest ih =>
    intro acc
    rw [List.foldl_cons]
    have hstep : acc.2 ≤ (electStep active acc p).2 ∧
        (qualB p.2 = true → p.2.volume ≤ (electStep active acc p).2) := by
      unfold electStep
      split_ifs with h
      · rcases h.2 with hlt | ⟨hveq, _⟩
        · exact ⟨le_of_lt hlt, fun _ => le_refl _⟩
        · exact ⟨le_of_eq hveq.symm, fun _ => le_refl _⟩
      · refine ⟨le_refl _, fun hq => ?_⟩
        by_contra hcon
        exact h ⟨hq, Or.inl (lt_of_not_le hcon)⟩
    obtain ⟨ih1, ih2⟩ := ih (electStep active acc p)
    refine ⟨le_trans hstep.1 ih1, ?_⟩
    intro q hq hqual
    rcases List.mem_cons.mp hq with rfl | hmem
    · exact le_trans (hstep.2 hqual) ih1
    · exact ih2 q hmem hqual

/-- With no qualified member the election fold returns its
accumulator. -/
theorem foldl_no_qual (active : ℤ) :
    ∀ (l : List (ℤ × ActiveDeckInfo)) (acc : ℤ × ℚ),
      (∀ p ∈ l, qualB p.2 = false) → l.foldl (electStep active) acc = acc := by
  intro l
  induction l with
  | nil => intro acc _; rfl
  | cons p rest ih =>
    intro acc h
    rw [List.foldl_cons]
    have : electStep active acc p = acc := by
      unfold electStep
      rw [if_neg]
      intro hc
      rw [h p (List.mem_cons_self _ _)] at hc
      exact Bool.noConfusion hc.1
    rw [this]
    exact ih acc (fun q hq => h q (List.mem_cons_of_mem _ hq))

/-- Once the accumulator holds the current master at a maximal volume,
the fold never moves away from it. -/
theorem foldl_keeps_master (active : ℤ) (av : ℚ) :
    ∀ (l : List (ℤ × ActiveDeckInfo)),
      (∀ p ∈ l, qualB p.2 = true → p.2.volume ≤ av) →
      l.foldl (electStep active) (active, av) = (active, av) := by
  intro l
  induction l with
  | nil => intro _; rfl
  | cons p rest ih =>
    intro h
    rw [List.foldl_cons]
    have hstep : electStep active (active, av) p = (active, av) := by
      unfold electStep
      split_ifs with hc
      · rcases hc.2 with hlt | ⟨hveq, hdeq⟩
        · exact absurd hlt (not_lt.mpr (h p (List.mem_cons_self _ _) hc.1))
        · rw [hdeq, hveq]
      · rfl
    rw [hstep]
    exact ih (fun q hq => h q (List.mem_cons_of_mem _ hq))

/-- When the current master is in the list, qualified, with maximal
volume, and is the only entry with its key, the fold elects it from any
accumulator whose best volume does not exceed the master's. -/
theorem foldl_master (active : ℤ) (ai : ActiveDeckInfo) :
    ∀ (l : List (ℤ × ActiveDeckInfo)) (acc : ℤ × ℚ),
      (active, ai) ∈ l → qualB ai = true →
      (∀ p ∈ l, qualB p.2 = true → p.2.volume ≤ ai.volume) →
      (∀ p ∈ l, p.1 = active → p.2 = ai) →
      acc.2 ≤ ai.volume →
      l.foldl (electStep active) acc = (active, ai.volume) := by
  intro l
  induction l with
  | nil =>
    intro acc h
    exact absurd h (List.not_mem_nil _)
  | cons p rest ih =>
    intro acc hmem hq hvol hkey hacc
    rw [List.foldl_cons]
    by_cases hphead : p.1 = active
    · have hp2 : p.2 = ai := hkey p (List.mem_cons_self _ _) hphead
      have hstep : electStep active acc p = (active, ai.volume) := by
        unfold electStep
        rw [if_pos ?_]
        · rw [hphead, hp2]
        · refine ⟨by rw [hp2]; exact hq, ?_⟩
          rcases lt_or_eq_of_le hacc with hlt | heq
          · exact Or.inl (by rw [hp2]; exact hlt)
          · exact Or.inr ⟨by rw [hp2]; exact heq.symm, hphead⟩
      rw [hstep]
      exact foldl_keeps_master active ai.volume rest
        (fun q hq2 hq3 => hvol q (List.mem_cons_of_mem _ hq2) hq3)
    · have hmem2 : (active, ai) ∈ rest := by
        rcases List.mem_cons.mp hmem with heq | h2
        · exact absurd (by rw [← heq]) hphead
        · exact h2
      have hacc2 : (electStep active acc p).2 ≤ ai.volume := by
        rcases electStep_cases active acc p with h | ⟨hq2, h⟩
        · rw [h]; exact hacc
        · rw [h]; exact hvol p (List.mem_cons_self _ _) hq2
      exact ih (electStep active acc p) hmem2 hq
        (fun q hq2 hq3 => hvol q (List.mem_cons_of_mem _ hq2) hq3)
        (fun q hq2 hq3 => hkey q (List.mem_cons_of_mem _ hq2) hq3) hacc2

/-- In a list whose keys are distinct, an entry with the key of a known
member equals that member's value. -/
theorem nodup_key_eq :
    ∀ (l : List (ℤ × ActiveDeckInfo)), (l.map Prod.fst).Nodup →
      ∀ (k : ℤ) (a : ActiveDeckInfo), (k, a) ∈ l →
        ∀ p ∈ l, p.1 = k → p.2 = a := by
  intro l
  induction l with
  | nil =>
    intro _ k a h
    exact absurd h (List.not_mem_nil _)
  | cons q rest ih =>
    intro hnd k a hmem p hp hpk
    rw [List.map_cons, List.nodup_cons] at hnd
    rcases List.mem_cons.mp hmem with heq | hmem2
    · rcases List.mem_cons.mp hp with heq2 | hp2
      · rw [heq2, ← heq]
      · exfalso
        apply hnd.1
        have h3 : p.1 ∈ List.map Prod.fst rest := List.mem_map_of_mem Prod.fst hp2
        rw [hpk] at h3
        rw [← heq]
        exact h3
    · rcases List.mem_cons.mp hp with heq2 | hp2
      · exfalso
        apply hnd.1
        have h3 : k ∈ List.map Prod.fst rest := List.mem_map_of_mem Prod.fst hmem2
        rw [heq2] at hpk
        rw [hpk]
        exact h3
      · exact ih hnd.2 k a hmem2 p hp2 hpk

/-- C2: the master rule.  (i) When no deck qualifies (audible, playing,
matched), the previous master stays.  (ii) When some deck qualifies, the
elected master is a qualified deck of maximal fader volume.  (iii) When
the current master qualifies and no qualified deck has a larger volume,
the master is retained (volume ties resolve in its favour) — this holds
for every iteration order of the deck map; the all-four-decks-tied case
with deck 4 master is an instance. -/
theorem C2_master_election (l : List (ℤ × ActiveDeckInfo)) (active : ℤ) :
    ((∀ p ∈ l, qualB p.2 = false) → newMaster l active = active) ∧
      ((∀ p ∈ l, p.1 ≠ 0) → (∀ p ∈ l, 0 ≤ p.2.volume) →
        (∃ p ∈ l, qualB p.2 = true) →
        ∃ p ∈ l, newMaster l active = p.1 ∧ qualB p.2 = true ∧
          ∀ q ∈ l, qualB q.2 = true → q.2.volume ≤ p.2.volume) ∧
      (∀ ai : ActiveDeckInfo, (active, ai) ∈ l → qualB ai = true → active ≠ 0 →
        0 ≤ ai.volume → (l.map Prod.fst).Nodup →
        (∀ q ∈ l, qualB q.2 = true → q.2.volume ≤ ai.volume) →
        newMaster l active = active) := by
  refine ⟨?_, ?_, ?_⟩
  · intro h
    have hfold := foldl_no_qual active l (0, -1) h
    unfold newMaster electBest
    rw [hfold]
    by_cases ha : active = 0
    · simp [ha]
    · simp [ha]
  · intro hkey hvol ⟨w, hw, hwq⟩
    rcases foldl_elect_cases active l (0, -1) with h | ⟨p, hp, hpq, h⟩
    · exfalso
      have hge := (foldl_elect_ge active l (0, -1)).2 w hw hwq
      rw [h] at hge
      have := hvol w hw
      simp only at hge
      linarith
    · refine ⟨p, hp, ?_, hpq, ?_⟩
      · unfold newMaster electBest
        rw [h]
        simp [hkey p hp]
      · intro q hq hqq
        have hge := (foldl_elect_ge active l (0, -1)).2 q hq hqq
        rw [h] at hge
        exact hge
  · intro ai hmem hq hnz hva hnd hvol
    have hfold := foldl_master active ai l (0, -1) hmem hq hvol
      (nodup_key_eq l hnd active ai hmem) (by simp only; linarith)
    unfold newMaster electBest
    rw [hfold]
    simp [hnz]

/-- Witness for C2: all four decks matched, audible, playing at equal
volume with deck 4 the current master — deck 4 remains master. -/
theorem C2_master_election_witness :
    newMaster [(1, infoAll), (2, infoAll), (3, infoAll), (4, infoAll)] 4 = 4 := by
  apply (C2_master_election [(1, infoAll), (2, infoAll), (3, infoAll), (4, infoAll)] 4).2.2 infoAll
  · decide
  · decide
  · decide
  · decide
  · decide
  · decide

/-! ## C4: half-time BPM correction -/

/-- C4: on a successful match with both BPMs positive, when the doubled
difference `|2·candidate − deck|` is below the direct difference and at
most 3.0 BPM, and the video has not been corrected before, the stored
BPM is doubled in the returned match, in the index, and in the durable
BPM cache, and the path is recorded in the corrected set; a video whose
path is already in the corrected set is never touched again.  In the
concrete cases: video BPM 70 against deck BPM 140 is corrected to 140,
while video BPM 68 against deck BPM 140 is left at 68. -/
theorem C4_halftime_correction :
    (∀ (st : MatcherState) (v : VideoFile) (d : ℚ),
        0 < v.bpm → 0 < d → st.bpmCorrected.contains v.path = false →
        |v.bpm * 2 - d| < |v.bpm - d| → |v.bpm * 2 - d| ≤ 3 →
        (correctHalfTimeBPM st v d).1.bpm = v.bpm * 2 ∧
          (correctHalfTimeBPM st v d).2.bpmCorrected.contains v.path = true ∧
          cacheGet (correctHalfTimeBPM st v d).2.bpmCache v.path = some (v.bpm * 2) ∧
          (correctHalfTimeBPM st v d).2.indexed = setFirstBPM st.indexed v.path (v.bpm * 2)) ∧
      (∀ (st : MatcherState) (v : VideoFile) (d : ℚ),
        st.bpmCorrected.contains v.path = true → correctHalfTimeBPM st v d = (v, st)) ∧
      (correctHalfTimeBPM matcher70 vid70 140).1.bpm = 140 ∧
      (correctHalfTimeBPM matcher68 vid68 140).1.bpm = 68 := by
  have hgen : ∀ (st : MatcherState) (v : VideoFile) (d : ℚ),
      0 < v.bpm → 0 < d → st.bpmCorrected.contains v.path = false →
      |v.bpm * 2 - d| < |v.bpm - d| → |v.bpm * 2 - d| ≤ 3 →
      (correctHalfTimeBPM st v d).1.bpm = v.bpm * 2 ∧
        (correctHalfTimeBPM st v d).2.bpmCorrected.contains v.path = true ∧
        cacheGet (correctHalfTimeBPM st v d).2.bpmCache v.path = some (v.bpm * 2) ∧
        (correctHalfTimeBPM st v d).2.indexed = setFirstBPM st.indexed v.path (v.bpm * 2) := by
    intro st v d hb hd hc h1 h2
    have hcond : ¬ (v.bpm ≤ 0 ∨ d ≤ 0) := by
      push_neg
      exact ⟨hb, hd⟩
    have hc2 : ¬ (st.bpmCorrected.contains v.path = true) := by rw [hc]; simp
    have hres : correctHalfTimeBPM st v d =
        ({ v with bpm := v.bpm * 2 },
          updateBPM { st with bpmCorrected := v.path :: st.bpmCorrected } v.path (v.bpm * 2)) := by
      unfold correctHalfTimeBPM
      rw [if_neg hcond, if_neg hc2]
      show (if |v.bpm * 2 - d| < |v.bpm - d| ∧ |v.bpm * 2 - d| ≤ 3 then _ else _) = _
      rw [if_pos (And.intro h1 h2)]
    rw [hres]
    refine ⟨rfl, ?_, ?_, rfl⟩
    · simp [updateBPM, List.contains_cons]
    · simp [updateBPM, cacheGet, cacheSet, List.find?]
  refine ⟨hgen, ?_, ?_, ?_⟩
  · intro st v d hc
    unfold correctHalfTimeBPM
    by_cases h1 : v.bpm ≤ 0 ∨ d ≤ 0
    · rw [if_pos h1]
    · rw [if_neg h1, if_pos hc]
  · have h := (hgen matcher70 vid70 140 (by norm_num [vid70]) (by norm_num)
      (by decide) (by norm_num [vid70]) (by norm_num [vid70])).1
    rw [h]
    norm_num [vid70]
  · norm_num [correctHalfTimeBPM, vid68, matcher68]

/-- Witness for C4: the 70-BPM correction instantiates the general
statement: the returned BPM is doubled, the path is marked corrected
and the cache holds 140. -/
theorem C4_halftime_correction_witness :
    (correctHalfTimeBPM matcher70 vid70 140).1.bpm = vid70.bpm * 2 ∧
      (correctHalfTimeBPM matcher70 vid70 140).2.bpmCorrected.contains vid70.path = true ∧
      cacheGet (correctHalfTimeBPM matcher70 vid70 140).2.bpmCache vid70.path =
        some (vid70.bpm * 2) := by
  have h := C4_halftime_correction.1 matcher70 vid70 140 (by norm_num [vid70]) (by norm_num)
    (by decide) (by norm_num [vid70]) (by norm_num [vid70])
  exact ⟨h.1, h.2.1, h.2.2.1⟩

/-! ## C7: minimal match level -/

/-- The half-time correction changes at most the BPM field of the
returned video. -/
theorem correctHalfTimeBPM_fst (st : MatcherState) (v : VideoFile) (d : ℚ) :
    (correctHalfTimeBPM st v d).1 = v ∨
      (correctHalfTimeBPM st v d).1 = { v with bpm := v.bpm * 2 } := by
  unfold correctHalfTimeBPM
  by_cases h1 : v.bpm ≤ 0 ∨ d ≤ 0
  · rw [if_pos h1]
    exact Or.inl rfl
  · rw [if_neg h1]
    by_cases h2 : st.bpmCorrected.contains v.path = true
    · rw [if_pos h2]
      exact Or.inl rfl
    · rw [if_neg h2]
      by_cases h3 : |v.bpm * 2 - d| < |v.bpm - d| ∧ |v.bpm * 2 - d| ≤ 3
      · right
        show (if |v.bpm * 2 - d| < |v.bpm - d| ∧ |v.bpm * 2 - d| ≤ 3 then
            ({ v with bpm := v.bpm * 2 },
              updateBPM { st with bpmCorrected := v.path :: st.bpmCorrected } v.path (v.bpm * 2))
          else (v, st)).1 = { v with bpm := v.bpm * 2 }
        rw [if_pos h3]
      · left
        show (if |v.bpm * 2 - d| < |v.bpm - d| ∧ |v.bpm * 2 - d| ≤ 3 then
            ({ v with bpm := v.bpm * 2 },
              updateBPM { st with bpmCorrected := v.path :: st.bpmCorrected } v.path (v.bpm * 2))
          else (v, st)).1 = v
        rw [if_neg h3]

/-- The half-time correction preserves the match level. -/
theorem correctHalfTimeBPM_level (st : MatcherState) (v : VideoFile) (d : ℚ) :
    (correctHalfTimeBPM st v d).1.matchLevel = v.matchLevel := by
  rcases correctHalfTimeBPM_fst st v d with h | h <;> rw [h]

/-- Level 0 hits exactly when some indexed name equals the song name. -/
theorem levelExact_isSome_iff (indexed : List IndexedFile) (sl ss : String) (bpm : ℚ) :
    (levelExact indexed sl).isSome = true ↔ levelApplies indexed sl ss bpm 0 = true := by
  show (levelExact indexed sl).isSome = true ↔
    (indexed.any fun ix => decide (lowerStr ix.file.name = sl)) = true
  unfold levelExact
  rw [Option.isSome_map', List.find?_isSome, List.any_eq_true]

/-- A level-0 return is marked level 0. -/
theorem levelExact_level (indexed : List IndexedFile) (sl : String) (v : VideoFile)
    (h : levelExact indexed sl = some v) : v.matchLevel = 0 := by
  unfold levelExact at h
  rcases Option.map_eq_some'.mp h with ⟨ix, _, hfx⟩
  rw [← hfx]

/-- Level 1 hits exactly when the stem is non-empty and matched. -/
theorem levelStem_isSome_iff (indexed : List IndexedFile) (sl ss : String) (bpm : ℚ) :
    (levelStem indexed ss).isSome = true ↔ levelApplies indexed sl ss bpm 1 = true := by
  show (levelStem indexed ss).isSome = true ↔
    ((!decide (ss = "")) && indexed.any fun ix => decide (ix.stem = ss)) = true
  unfold levelStem
  by_cases he : ss = ""
  · rw [if_pos he]
    simp [he]
  · rw [if_neg he]
    rw [Option.isSome_map', List.find?_isSome]
    simp [he, List.any_eq_true]

/-- A level-1 return is marked level 1. -/
theorem levelStem_level (indexed : List IndexedFile) (ss : String) (v : VideoFile)
    (h : levelStem indexed ss = some v) : v.matchLevel = 1 := by
  unfold levelStem at h
  split at h
  · exact absurd h (by simp)
  · rcases Option.map_eq_some'.mp h with ⟨ix, _, hfx⟩
    rw [← hfx]

/-- One fuzzy step either keeps the accumulator or records a candidate
whose similarity is at least 0.70. -/
theorem fuzzyStep_cases (ss : String) (acc : ℚ × Option IndexedFile) (ix : IndexedFile) :
    fuzzyStep ss acc ix = acc ∨
      (7/10 ≤ similarity ss.toList ix.stem.toList ∧
        fuzzyStep ss acc ix = (similarity ss.toList ix.stem.toList, some ix)) := by
  simp only [fuzzyStep]
  split_ifs with h
  · exact Or.inr ⟨h.1, rfl⟩
  · exact Or.inl rfl

/-- The fuzzy fold keeps its hit or some member reaches the 0.70
threshold. -/
theorem foldl_fuzzy_mem (ss : String) :
    ∀ (l : List IndexedFile) (acc : ℚ × Option IndexedFile),
      (l.foldl (fuzzyStep ss) acc).2 = acc.2 ∨
        ∃ ix ∈ l, 7/10 ≤ similarity ss.toList ix.stem.toList := by
  intro l
  induction l with
  | nil => intro acc; exact Or.inl rfl
  | cons p rest ih =>
    intro acc
    rw [List.foldl_cons]
    rcases fuzzyStep_cases ss acc p with h | ⟨hs, h⟩
    · rw [h]
      rcases ih acc with h2 | ⟨ix, hmem, hsim⟩
      · exact Or.inl h2
      · exact Or.inr ⟨ix, List.mem_cons_of_mem _ hmem, hsim⟩
    · exact Or.inr ⟨p, List.mem_cons_self _ _, hs⟩

/-- Once the fuzzy fold holds a hit it never loses it. -/
theorem foldl_fuzzy_some (ss : String) :
    ∀ (l : List IndexedFile) (acc : ℚ × Option IndexedFile),
      acc.2.isSome = true → (l.foldl (fuzzyStep ss) acc).2.isSome = true := by
  intro l
  induction l with
  | nil => intro acc h; exact h
  | cons p rest ih =>
    intro acc h
    rw [List.foldl_cons]
    rcases fuzzyStep_cases ss acc p with hs | ⟨_, hs⟩ <;> rw [hs]
    · exact ih acc h
    · exact ih _ rfl

/-- A member at the 0.70 threshold forces the fuzzy fold to hold a
hit (starting, as the matcher does, from best similarity 0). -/
theorem foldl_fuzzy_trigger (ss : String) :
    ∀ (l : List IndexedFile) (acc : ℚ × Option IndexedFile),
      (acc.2.isSome = true ∨ acc.1 = 0) →
      (∃ ix ∈ l, 7/10 ≤ similarity ss.toList ix.stem.toList) →
      (l.foldl (fuzzyStep ss) acc).2.isSome = true := by
  intro l
  induction l with
  | nil =>
    intro acc _ h
    obtain ⟨ix, hmem, _⟩ := h
    exact absurd hmem (List.not_mem_nil _)
  | cons p rest ih =>
    intro acc hP hex
    rw [List.foldl_cons]
    rcases hP with hsome | hzero
    · rcases fuzzyStep_cases ss acc p with hs | ⟨_, hs⟩ <;> rw [hs]
      · exact foldl_fuzzy_some ss rest acc hsome
      · exact foldl_fuzzy_some ss rest _ rfl
    · obtain ⟨ix, hmem, hsim⟩ := hex
      rcases List.mem_cons.mp hmem with rfl | hmem2
      · have hstep : fuzzyStep ss acc ix =
            (similarity ss.toList ix.stem.toList, some ix) := by
          simp only [fuzzyStep]
          rw [if_pos ⟨hsim, by rw [hzero]; linarith⟩]
        rw [hstep]
        exact foldl_fuzzy_some ss rest _ rfl
      · rcases fuzzyStep_cases ss acc p with hs | ⟨_, hs⟩ <;> rw [hs]
        · exact ih acc (Or.inr hzero) ⟨ix, hmem2, hsim⟩
        · exact foldl_fuzzy_some ss rest _ rfl

/-- Level 2 hits exactly when some member's similarity is ≥ 0.70. -/
theorem levelFuzzy_isSome_iff (indexed : List IndexedFile) (sl ss : String) (bpm : ℚ) :
    (levelFuzzy indexed ss).isSome = true ↔ levelApplies indexed sl ss bpm 2 = true := by
  show (levelFuzzy indexed ss).isSome = true ↔
    (indexed.any fun ix => decide (7/10 ≤ similarity ss.toList ix.stem.toList)) = true
  constructor
  · intro h
    rw [List.any_eq_true]
    rcases foldl_fuzzy_mem ss indexed (0, none) with hm | ⟨ix, hmem, hsim⟩
    · exfalso
      have h2 : (fuzzyFold ss indexed).2 = none := hm
      unfold levelFuzzy at h
      rcases hf : fuzzyFold ss indexed with ⟨bs, o⟩
      rw [hf] at h h2
      cases o with
      | none => simp at h
      | some ix2 => simp at h2
    · exact ⟨ix, hmem, decide_eq_true hsim⟩
  · intro h
    obtain ⟨ix, hmem, hsim⟩ := List.any_eq_true.mp h
    rw [decide_eq_true_eq] at hsim
    have hS : (fuzzyFold ss indexed).2.isSome = true :=
      foldl_fuzzy_trigger ss indexed (0, none) (Or.inr rfl) ⟨ix, hmem, hsim⟩
    unfold levelFuzzy
    rcases hf : fuzzyFold ss indexed with ⟨bs, o⟩
    rw [hf] at hS
    cases o with
    | none => simp at hS
    | some ix2 => rfl

/-- A level-2 return is marked level 2. -/
theorem levelFuzzy_level (indexed : List IndexedFile) (ss : String) (v : VideoFile)
    (h : levelFuzzy indexed ss = some v) : v.matchLevel = 2 := by
  unfold levelFuzzy at h
  split at h
  · rw [Option.some_inj] at h
    rw [← h]
  · exact absurd h (by simp)

/-- Insertion into the diff-sorted list never yields the empty list. -/
theorem insertByDiff_ne_nil (c : BPMCand) (l : List BPMCand) : insertByDiff c l ≠ [] := by
  cases l with
  | nil => simp [insertByDiff]
  | cons d rest =>
    unfold insertByDiff
    split_ifs <;> simp

/-- The diff-sort is empty exactly on the empty list. -/
theorem sortByDiff_eq_nil_iff (l : List BPMCand) : sortByDiff l = [] ↔ l = [] := by
  cases l with
  | nil => simp [sortByDiff]
  | cons c rest =>
    unfold sortByDiff
    constructor
    · intro h
      exact absurd h (insertByDiff_ne_nil _ _)
    · intro h
      exact absurd h (by simp)

/-- The level-3 candidate test fails exactly when the candidate's BPM is
unknown or its similarity is below 0.30. -/
theorem bpmFuzzyCand_eq_none_iff (ss : String) (bpm : ℚ) (ix : IndexedFile) :
    bpmFuzzyCand ss bpm ix = none ↔
      ¬(0 < ix.file.bpm ∧ 3/10 ≤ similarity ss.toList ix.stem.toList) := by
  unfold bpmFuzzyCand
  by_cases h1 : ix.file.bpm ≤ 0
  · rw [if_pos h1]
    refine iff_of_true rfl ?_
    rintro ⟨ha, -⟩
    exact absurd ha (not_lt.mpr h1)
  · rw [if_neg h1]
    by_cases h2 : similarity ss.toList ix.stem.toList < 3/10
    · show (if similarity ss.toList ix.stem.toList < 3/10 then (none : Option BPMCand)
          else some ⟨ix, similarity ss.toList ix.stem.toList, bpmDiff bpm ix.file.bpm⟩) =
            none ↔ _
      rw [if_pos h2]
      refine iff_of_true rfl ?_
      rintro ⟨-, hs⟩
      exact absurd hs (not_le.mpr h2)
    · show (if similarity ss.toList ix.stem.toList < 3/10 then (none : Option BPMCand)
          else some ⟨ix, similarity ss.toList ix.stem.toList, bpmDiff bpm ix.file.bpm⟩) =
            none ↔ _
      rw [if_neg h2]
      refine iff_of_false (by simp) ?_
      intro hcon
      exact hcon ⟨lt_of_not_le h1, not_lt.mp h2⟩

/-- The level-4 candidate test fails exactly when the candidate's BPM is
unknown. -/
theorem bpmCandOf_eq_none_iff (bpm : ℚ) (ix : IndexedFile) :
    bpmCandOf bpm ix = none ↔ ¬(0 < ix.file.bpm) := by
  unfold bpmCandOf
  by_cases h1 : ix.file.bpm ≤ 0
  · rw [if_pos h1]
    exact iff_of_true rfl (not_lt.mpr h1)
  · rw [if_neg h1]
    exact iff_of_false (by simp) (not_not.mpr (lt_of_not_le h1))

/-- Level 3 hits exactly when the deck BPM is known and some candidate
has a known BPM with similarity ≥ 0.30. -/
theorem levelBPMFuzzy_isSome_iff (indexed : List IndexedFile) (sl ss : String) (bpm : ℚ) :
    (levelBPMFuzzy indexed sl ss bpm).isSome = true ↔
      levelApplies indexed sl ss bpm 3 = true := by
  show (levelBPMFuzzy indexed sl ss bpm).isSome = true ↔
    (decide (0 < bpm) && indexed.any fun ix =>
      decide (0 < ix.file.bpm) && decide (3/10 ≤ similarity ss.toList ix.stem.toList)) = true
  unfold levelBPMFuzzy
  by_cases hb : 0 < bpm
  · rw [if_pos hb]
    dsimp only
    split
    · rename_i heq
      rw [sortByDiff_eq_nil_iff, List.filterMap_eq_nil_iff] at heq
      refine iff_of_false (by simp) ?_
      intro hR
      rw [Bool.and_eq_true, List.any_eq_true] at hR
      obtain ⟨-, ix, hmem, hx⟩ := hR
      rw [Bool.and_eq_true, decide_eq_true_eq, decide_eq_true_eq] at hx
      exact (bpmFuzzyCand_eq_none_iff ss bpm ix).mp (heq ix hmem) hx
    · rename_i c rest heq
      refine iff_of_true rfl ?_
      rw [Bool.and_eq_true, List.any_eq_true]
      refine ⟨decide_eq_true hb, ?_⟩
      have hne : indexed.filterMap (bpmFuzzyCand ss bpm) ≠ [] := by
        intro h0
        rw [h0] at heq
        simp [sortByDiff] at heq
      obtain ⟨a, hmem, hfa⟩ : ∃ a ∈ indexed, bpmFuzzyCand ss bpm a ≠ none := by
        by_contra hall
        push_neg at hall
        exact hne (List.filterMap_eq_nil_iff.mpr hall)
      have h2 : ¬¬(0 < a.file.bpm ∧ 3/10 ≤ similarity ss.toList a.stem.toList) :=
        fun hc => hfa ((bpmFuzzyCand_eq_none_iff ss bpm a).mpr hc)
      obtain ⟨h3, h4⟩ := not_not.mp h2
      exact ⟨a, hmem, by
        rw [Bool.and_eq_true]
        exact ⟨decide_eq_true h3, decide_eq_true h4⟩⟩
  · rw [if_neg hb]
    refine iff_of_false (by simp) ?_
    intro hR
    rw [Bool.and_eq_true, decide_eq_true_eq] at hR
    exact hb hR.1

/-- A level-3 return is marked level 3. -/
theorem levelBPMFuzzy_level (indexed : List IndexedFile) (sl ss : String) (bpm : ℚ)
    (v : VideoFile) (h : levelBPMFuzzy indexed sl ss bpm = some v) : v.matchLevel = 3 := by
  unfold levelBPMFuzzy at h
  split at h
  · dsimp only at h
    split at h
    · exact absurd h (by simp)
    · rw [Option.some_inj] at h
      rw [← h]
  · exact absurd h (by simp)

/-- Level 4 hits exactly when the deck BPM is known and some candidate
has a known BPM. -/
theorem levelBPM_isSome_iff (indexed : List IndexedFile) (sl ss : String) (bpm : ℚ) :
    (levelBPM indexed sl bpm).isSome = true ↔ levelApplies indexed sl ss bpm 4 = true := by
  show (levelBPM indexed sl bpm).isSome = true ↔
    (decide (0 < bpm) && indexed.any fun ix => decide (0 < ix.file.bpm)) = true
  unfold levelBPM
  by_cases hb : 0 < bpm
  · rw [if_pos hb]
    dsimp only
    split
    · rename_i heq
      rw [sortByDiff_eq_nil_iff, List.filterMap_eq_nil_iff] at heq
      refine iff_of_false (by simp) ?_
      intro hR
      rw [Bool.and_eq_true, List.any_eq_true] at hR
      obtain ⟨-, ix, hmem, hx⟩ := hR
      rw [decide_eq_true_eq] at hx
      exact (bpmCandOf_eq_none_iff bpm ix).mp (heq ix hmem) hx
    · rename_i c rest heq
      refine iff_of_true rfl ?_
      rw [Bool.and_eq_true, List.any_eq_true]
      refine ⟨decide_eq_true hb, ?_⟩
      have hne : indexed.filterMap (bpmCandOf bpm) ≠ [] := by
        intro h0
        rw [h0] at heq
        simp [sortByDiff] at heq
      obtain ⟨a, hmem, hfa⟩ : ∃ a ∈ indexed, bpmCandOf bpm a ≠ none := by
        by_contra hall
        push_neg at hall
        exact hne (List.filterMap_eq_nil_iff.mpr hall)
      have h3 : 0 < a.file.bpm :=
        not_not.mp (fun hc => hfa ((bpmCandOf_eq_none_iff bpm a).mpr hc))
      exact ⟨a, hmem, decide_eq_true h3⟩
  · rw [if_neg hb]
    refine iff_of_false (by simp) ?_
    intro hR
    rw [Bool.and_eq_true, decide_eq_true_eq] at hR
    exact hb hR.1

/-- A level-4 return is marked level 4. -/
theorem levelBPM_level (indexed : List IndexedFile) (sl : String) (bpm : ℚ)
    (v : VideoFile) (h : levelBPM indexed sl bpm = some v) : v.matchLevel = 4 := by
  unfold levelBPM at h
  split at h
  · dsimp only at h
    split at h
    · exact absurd h (by simp)
    · rw [Option.some_inj] at h
      rw [← h]
  · exact absurd h (by simp)

/-- The level-5 fallback is marked level 5. -/
theorem levelRandom_level (indexed : List IndexedFile) (sl : String) (dflt : IndexedFile) :
    (levelRandom indexed sl dflt).matchLevel = 5 := rfl

/-- The raw cascade returns the first level whose precondition holds:
its level applies, and every lower level's precondition fails. -/
theorem matchRaw_spec (indexed : List IndexedFile) (sl ss : String) (bpm : ℚ)
    (d0 : IndexedFile) (hne : indexed ≠ []) :
    levelApplies indexed sl ss bpm (matchRaw indexed sl ss bpm d0).matchLevel = true ∧
      ∀ lv, lv < (matchRaw indexed sl ss bpm d0).matchLevel →
        levelApplies indexed sl ss bpm lv = false := by
  have happ5 : levelApplies indexed sl ss bpm 5 = true := by
    show (!indexed.isEmpty) = true
    cases indexed with
    | nil => exact absurd rfl hne
    | cons a l => rfl
  unfold matchRaw
  cases h0 : levelExact indexed sl with
  | some v0 =>
    constructor
    · rw [levelExact_level indexed sl v0 h0]
      exact (levelExact_isSome_iff indexed sl ss bpm).mp (by rw [h0]; rfl)
    · intro lv hlv
      rw [levelExact_level indexed sl v0 h0] at hlv
      exact absurd hlv (Nat.not_lt_zero _)
  | none =>
    have ha0 : levelApplies indexed sl ss bpm 0 = false := by
      rw [Bool.eq_false_iff]
      intro hc
      have h2 := (levelExact_isSome_iff indexed sl ss bpm).mpr hc
      rw [h0] at h2
      exact Bool.noConfusion h2
    cases h1 : levelStem indexed ss with
    | some v1 =>
      constructor
      · rw [levelStem_level indexed ss v1 h1]
        exact (levelStem_isSome_iff indexed sl ss bpm).mp (by rw [h1]; rfl)
      · intro lv hlv
        rw [levelStem_level indexed ss v1 h1] at hlv
        interval_cases lv
        exact ha0
    | none =>
      have ha1 : levelApplies indexed sl ss bpm 1 = false := by
        rw [Bool.eq_false_iff]
        intro hc
        have h2 := (levelStem_isSome_iff indexed sl ss bpm).mpr hc
        rw [h1] at h2
        exact Bool.noConfusion h2
      cases h2 : levelFuzzy indexed ss with
      | some v2 =>
        constructor
        · rw [levelFuzzy_level indexed ss v2 h2]
          exact (levelFuzzy_isSome_iff indexed sl ss bpm).mp (by rw [h2]; rfl)
        · intro lv hlv
          rw [levelFuzzy_level indexed ss v2 h2] at hlv
          interval_cases lv
          · exact ha0
          · exact ha1
      | none =>
        have ha2 : levelApplies indexed sl ss bpm 2 = false := by
          rw [Bool.eq_false_iff]
          intro hc
          have hx := (levelFuzzy_isSome_iff indexed sl ss bpm).mpr hc
          rw [h2] at hx
          exact Bool.noConfusion hx
        cases h3 : levelBPMFuzzy indexed sl ss bpm with
        | some v3 =>
          constructor
          · rw [levelBPMFuzzy_level indexed sl ss bpm v3 h3]
            exact (levelBPMFuzzy_isSome_iff indexed sl ss bpm).mp (by rw [h3]; rfl)
          · intro lv hlv
            rw [levelBPMFuzzy_level indexed sl ss bpm v3 h3] at hlv
            interval_cases lv
            · exact ha0
            · exact ha1
            · exact ha2
        | none =>
          have ha3 : levelApplies indexed sl ss bpm 3 = false := by
            rw [Bool.eq_false_iff]
            intro hc
            have hx := (levelBPMFuzzy_isSome_iff indexed sl ss bpm).mpr hc
            rw [h3] at hx
            exact Bool.noConfusion hx
          cases h4 : levelBPM indexed sl bpm with
          | some v4 =>
            constructor
            · rw [levelBPM_level indexed sl bpm v4 h4]
              exact (levelBPM_isSome_iff indexed sl ss bpm).mp (by rw [h4]; rfl)
            · intro lv hlv
              rw [levelBPM_level indexed sl bpm v4 h4] at hlv
              interval_cases lv
              · exact ha0
              · exact ha1
              · exact ha2
              · exact ha3
          | none =>
            have ha4 : levelApplies indexed sl ss bpm 4 = false := by
              rw [Bool.eq_false_iff]
              intro hc
              have hx := (levelBPM_isSome_iff indexed sl ss bpm).mpr hc
              rw [h4] at hx
              exact Bool.noConfusion hx
            constructor
            · rw [levelRandom_level indexed sl d0]
              exact happ5
            · intro lv hlv
              rw [levelRandom_level indexed sl d0] at hlv
              interval_cases lv
              · exact ha0
              · exact ha1
              · exact ha2
              · exact ha3
              · exact ha4

/-- C7: for every call on a non-empty index, the returned match level is
the minimum level among those whose preconditions hold: the returned
level's precondition holds and every lower level's precondition fails.
At the boundaries, a similarity of exactly 0.70 qualifies for level 2
and a similarity of exactly 0.30 (with deck and candidate BPM known)
qualifies for level 3. -/
theorem C7_match_level_minimal :
    (∀ (st : MatcherState) (song : String) (bpm : ℚ) (v : VideoFile) (st2 : MatcherState),
        matchVideo st song bpm = (some v, st2) →
        levelApplies st.indexed (songLowerOf song) (songStemOf song) bpm v.matchLevel = true ∧
          ∀ lv, lv < v.matchLevel →
            levelApplies st.indexed (songLowerOf song) (songStemOf song) bpm lv = false) ∧
      (similarity "aaaaaaaaaa".toList "aaaaaaabbb".toList = 7/10 ∧
        (matchVideo ⟨[⟨⟨"aaaaaaabbb.mp4", "/videos/aaaaaaabbb.mp4", 0, "", 0, 0⟩,
            "aaaaaaabbb"⟩], [], []⟩ "aaaaaaaaaa.mp4" 0).1.map (fun v => v.matchLevel) =
          some 2) ∧
      (similarity "aaaaaaaaaa".toList "aaabbbbbbb".toList = 3/10 ∧
        (matchVideo ⟨[⟨⟨"aaabbbbbbb.mp4", "/videos/aaabbbbbbb.mp4", 128, "", 0, 0⟩,
            "aaabbbbbbb"⟩], [], []⟩ "aaaaaaaaaa.mp4" 120).1.map (fun v => v.matchLevel) =
          some 3) := by
  have hmain : ∀ (st : MatcherState) (song : String) (bpm : ℚ) (v : VideoFile)
      (st2 : MatcherState), matchVideo st song bpm = (some v, st2) →
      levelApplies st.indexed (songLowerOf song) (songStemOf song) bpm v.matchLevel = true ∧
        ∀ lv, lv < v.matchLevel →
          levelApplies st.indexed (songLowerOf song) (songStemOf song) bpm lv = false := by
    intro st song bpm v st2 h
    unfold matchVideo at h
    cases hidx : st.indexed with
    | nil =>
      rw [hidx] at h
      exact absurd h (by simp)
    | cons d0 rest =>
      rw [hidx] at h
      dsimp only at h
      rw [Prod.mk.injEq, Option.some_inj] at h
      obtain ⟨hv, -⟩ := h
      have hlev : v.matchLevel =
          (matchRaw (d0 :: rest) (songLowerOf song) (songStemOf song) bpm d0).matchLevel := by
        rw [← hv]
        exact correctHalfTimeBPM_level _ _ _
      have hspec := matchRaw_spec (d0 :: rest) (songLowerOf song) (songStemOf song) bpm d0
        (by simp)
      rw [hlev]
      exact hspec
  have hsimB : similarity "aaaaaaaaaa".toList "aaaaaaabbb".toList = 7/10 := by
    unfold similarity
    rw [if_neg (by decide), if_neg (by decide)]
    rw [show levenshtein "aaaaaaaaaa".toList "aaaaaaabbb".toList = 3 from by decide]
    rw [show ("aaaaaaaaaa".toList.length) = 10 from by decide,
      show ("aaaaaaabbb".toList.length) = 10 from by decide]
    norm_num
  have hsimC : similarity "aaaaaaaaaa".toList "aaabbbbbbb".toList = 3/10 := by
    unfold similarity
    rw [if_neg (by decide), if_neg (by decide)]
    rw [show levenshtein "aaaaaaaaaa".toList "aaabbbbbbb".toList = 7 from by decide]
    rw [show ("aaaaaaaaaa".toList.length) = 10 from by decide,
      show ("aaabbbbbbb".toList.length) = 10 from by decide]
    norm_num
  refine ⟨hmain, ⟨hsimB, ?_⟩, ⟨hsimC, ?_⟩⟩
  · obtain ⟨v, st2, hv⟩ :
        ∃ v st2, matchVideo ⟨[⟨⟨"aaaaaaabbb.mp4", "/videos/aaaaaaabbb.mp4", 0, "", 0, 0⟩,
          "aaaaaaabbb"⟩], [], []⟩ "aaaaaaaaaa.mp4" 0 = (some v, st2) := by
      unfold matchVideo
      exact ⟨_, _, rfl⟩
    obtain ⟨happ, hmin⟩ := hmain _ _ _ _ _ hv
    have ha0 : levelApplies [⟨⟨"aaaaaaabbb.mp4", "/videos/aaaaaaabbb.mp4", 0, "", 0, 0⟩,
        "aaaaaaabbb"⟩] (songLowerOf "aaaaaaaaaa.mp4") (songStemOf "aaaaaaaaaa.mp4") 0 0 =
        false := by decide
    have ha1 : levelApplies [⟨⟨"aaaaaaabbb.mp4", "/videos/aaaaaaabbb.mp4", 0, "", 0, 0⟩,
        "aaaaaaabbb"⟩] (songLowerOf "aaaaaaaaaa.mp4") (songStemOf "aaaaaaaaaa.mp4") 0 1 =
        false := by decide
    have ha2 : levelApplies [⟨⟨"aaaaaaabbb.mp4", "/videos/aaaaaaabbb.mp4", 0, "", 0, 0⟩,
        "aaaaaaabbb"⟩] (songLowerOf "aaaaaaaaaa.mp4") (songStemOf "aaaaaaaaaa.mp4") 0 2 =
        true := by
      show ([⟨⟨"aaaaaaabbb.mp4", "/videos/aaaaaaabbb.mp4", 0, "", 0, 0⟩,
          ("aaaaaaabbb" : String)⟩] : List IndexedFile).any (fun ix =>
          decide (7/10 ≤ similarity (songStemOf "aaaaaaaaaa.mp4").toList ix.stem.toList)) =
        true
      rw [show songStemOf "aaaaaaaaaa.mp4" = "aaaaaaaaaa" from by decide]
      simp only [List.any_cons, List.any_nil, Bool.or_false]
      rw [hsimB]
      exact decide_eq_true (le_refl _)
    have hlev2 : v.matchLevel = 2 := by
      rcases lt_trichotomy v.matchLevel 2 with hlt | heq | hgt
      · have hk : v.matchLevel = 0 ∨ v.matchLevel = 1 := by omega
        rcases hk with hk | hk <;> rw [hk] at happ
        · rw [ha0] at happ
          exact Bool.noConfusion happ
        · rw [ha1] at happ
          exact Bool.noConfusion happ
      · exact heq
      · have hx := hmin 2 hgt
        rw [ha2] at hx
        exact Bool.noConfusion hx
    rw [hv]
    simp [hlev2]
  · obtain ⟨v, st2, hv⟩ :
        ∃ v st2, matchVideo ⟨[⟨⟨"aaabbbbbbb.mp4", "/videos/aaabbbbbbb.mp4", 128, "", 0, 0⟩,
          "aaabbbbbbb"⟩], [], []⟩ "aaaaaaaaaa.mp4" 120 = (some v, st2) := by
      unfold matchVideo
      exact ⟨_, _, rfl⟩
    obtain ⟨happ, hmin⟩ := hmain _ _ _ _ _ hv
    have ha0 : levelApplies [⟨⟨"aaabbbbbbb.mp4", "/videos/aaabbbbbbb.mp4", 128, "", 0, 0⟩,
        "aaabbbbbbb"⟩] (songLowerOf "aaaaaaaaaa.mp4") (songStemOf "aaaaaaaaaa.mp4") 120 0 =
        false := by decide
    have ha1 : levelApplies [⟨⟨"aaabbbbbbb.mp4", "/videos/aaabbbbbbb.mp4", 128, "", 0, 0⟩,
        "aaabbbbbbb"⟩] (songLowerOf "aaaaaaaaaa.mp4") (songStemOf "aaaaaaaaaa.mp4") 120 1 =
        false := by decide
    have ha2 : levelApplies [⟨⟨"aaabbbbbbb.mp4", "/videos/aaabbbbbbb.mp4", 128, "", 0, 0⟩,
        "aaabbbbbbb"⟩] (songLowerOf "aaaaaaaaaa.mp4") (songStemOf "aaaaaaaaaa.mp4") 120 2 =
        false := by
      show ([⟨⟨"aaabbbbbbb.mp4", "/videos/aaabbbbbbb.mp4", 128, "", 0, 0⟩,
          ("aaabbbbbbb" : String)⟩] : List IndexedFile).any (fun ix =>
          decide (7/10 ≤ similarity (songStemOf "aaaaaaaaaa.mp4").toList ix.stem.toList)) =
        false
      rw [show songStemOf "aaaaaaaaaa.mp4" = "aaaaaaaaaa" from by decide]
      simp only [List.any_cons, List.any_nil, Bool.or_false]
      rw [hsimC]
      exact decide_eq_false (by norm_num)
    have ha3 : levelApplies [⟨⟨"aaabbbbbbb.mp4", "/videos/aaabbbbbbb.mp4", 128, "", 0, 0⟩,
        "aaabbbbbbb"⟩] (songLowerOf "aaaaaaaaaa.mp4") (songStemOf "aaaaaaaaaa.mp4") 120 3 =
        true := by
      show (decide ((0 : ℚ) < 120) &&
          ([⟨⟨"aaabbbbbbb.mp4", "/videos/aaabbbbbbb.mp4", 128, "", 0, 0⟩,
            ("aaabbbbbbb" : String)⟩] : List IndexedFile).any (fun ix =>
            decide ((0 : ℚ) < ix.file.bpm) &&
              decide (3/10 ≤ similarity (songStemOf "aaaaaaaaaa.mp4").toList ix.stem.toList))) =
        true
      rw [show songStemOf "aaaaaaaaaa.mp4" = "aaaaaaaaaa" from by decide]
      simp only [List.any_cons, List.any_nil, Bool.or_false]
      rw [hsimC]
      rw [Bool.and_eq_true, Bool.and_eq_true]
      exact ⟨decide_eq_true (by norm_num), decide_eq_true (by norm_num),
        decide_eq_true (le_refl _)⟩
    have hlev3 : v.matchLevel = 3 := by
      rcases lt_trichotomy v.matchLevel 3 with hlt | heq | hgt
      · have hk : v.matchLevel = 0 ∨ v.matchLevel = 1 ∨ v.matchLevel = 2 := by omega
        rcases hk with hk | hk | hk <;> rw [hk] at happ
        · rw [ha0] at happ
          exact Bool.noConfusion happ
        · rw [ha1] at happ
          exact Bool.noConfusion happ
        · rw [ha2] at happ
          exact Bool.noConfusion happ
      · exact heq
      · have hx := hmin 3 hgt
        rw [ha3] at hx
        exact Bool.noConfusion hx
    rw [hv]
    simp [hlev3]

/-- Witness for C7: the one-video index matched by its own filename
returns the exact level-0 result, whose precondition indeed applies. -/
theorem C7_match_level_minimal_witness :
    levelApplies matcherA.indexed (songLowerOf "a.mp4") (songStemOf "a.mp4") 0 0 = true ∧
      (∀ lv, lv < 0 →
        levelApplies matcherA.indexed (songLowerOf "a.mp4") (songStemOf "a.mp4") 0 lv =
          false) := by
  have h := C7_match_level_minimal.1 matcherA "a.mp4" 0
    { name := "a.mp4", path := "/videos/a.mp4", bpm := 0,
      matchType := "exact", matchLevel := 0, similarity := 1 } matcherA (by decide)
  exact ⟨h.1, h.2⟩

/-! ## C9: monotone videoElapsedMs -/

/-- The tracker's clamped rate always lies in [1/4, 4]. -/
theorem computeRate_bounds (p d v : ℚ) :
    1/4 ≤ computeRate p d v ∧ computeRate p d v ≤ 4 := by
  simp only [computeRate]
  constructor <;> split_ifs <;> linarith

/-- One tracker step on an unchanged video path never decreases the
accumulator, publishes exactly the accumulator, stamps the update time,
and leaves a non-negative rate and the same path. -/
theorem videoSyncUpdate_mono (vs : DeckVideoSync) (now : ℚ) (s : DeckState) (m : VideoFile)
    (hrate : 0 ≤ vs.lastRate) (hpath : vs.videoPath = m.path) (htime : vs.lastUpdate ≤ now) :
    vs.accumulatedMs ≤ (videoSyncUpdate (some vs) now s m).2 ∧
      (videoSyncUpdate (some vs) now s m).1.accumulatedMs = (videoSyncUpdate (some vs) now s m).2 ∧
      (videoSyncUpdate (some vs) now s m).1.lastUpdate = now ∧
      0 ≤ (videoSyncUpdate (some vs) now s m).1.lastRate ∧
      (videoSyncUpdate (some vs) now s m).1.videoPath = m.path := by
  have hrb := (computeRate_bounds s.pitch s.bpm m.bpm).1
  simp only [videoSyncUpdate, Option.getD_some]
  rw [if_neg (by simp [hpath] : ¬ vs.videoPath ≠ m.path)]
  by_cases hp : vs.playing = true ∧ vs.lastUpdate ≠ 0
  · rw [if_pos hp]
    have hnn : 0 ≤ (now - vs.lastUpdate) * vs.lastRate :=
      mul_nonneg (by linarith) hrate
    refine ⟨?_, trivial, trivial, by linarith, ?_⟩
    · show vs.accumulatedMs ≤ vs.accumulatedMs + (now - vs.lastUpdate) * vs.lastRate
      linarith
    · exact hpath
  · rw [if_neg hp]
    exact ⟨le_refl _, trivial, trivial, by linarith, hpath⟩

/-- The first tracker step of a deck (no record yet) publishes 0, stamps
the update time, and leaves a non-negative rate and the matched path. -/
theorem videoSyncUpdate_first (now : ℚ) (s : DeckState) (m : VideoFile) :
    (videoSyncUpdate none now s m).2 = (videoSyncUpdate none now s m).1.accumulatedMs ∧
      (videoSyncUpdate none now s m).1.accumulatedMs = 0 ∧
      (videoSyncUpdate none now s m).1.lastUpdate = now ∧
      0 ≤ (videoSyncUpdate none now s m).1.lastRate ∧
      (videoSyncUpdate none now s m).1.videoPath = m.path := by
  have hrb := (computeRate_bounds s.pitch s.bpm m.bpm).1
  simp only [videoSyncUpdate, Option.getD_none]
  by_cases hne : zeroSync.videoPath ≠ m.path
  · rw [if_pos hne]
    refine ⟨trivial, by simp, trivial, by linarith, by simp⟩
  · rw [if_neg hne]
    rw [not_not] at hne
    refine ⟨trivial, by simp [zeroSync], trivial, by linarith, ?_⟩
    simpa [zeroSync] using hne

/-- Monotonicity of the published values along a run, generalised over
the starting record. -/
theorem syncTrace_chain (l : List (ℚ × DeckState × VideoFile)) : ∀ (vs : DeckVideoSync),
    0 ≤ vs.lastRate →
    (∀ e ∈ l, e.2.2.path = vs.videoPath) →
    List.Chain' (· ≤ ·) (vs.lastUpdate :: l.map (fun e => e.1)) →
    List.Chain' (· ≤ ·) (vs.accumulatedMs :: syncTrace (some vs) l) := by
  induction l with
  | nil =>
    intro vs _ _ _
    simp [syncTrace]
  | cons e rest ih =>
    obtain ⟨now, s, m⟩ := e
    intro vs hrate hpath htime
    have hm : vs.videoPath = m.path := (hpath _ (List.mem_cons_self _ _)).symm
    rw [List.map_cons, List.chain'_cons] at htime
    have hstep := videoSyncUpdate_mono vs now s m hrate hm htime.1
    rw [syncTrace, List.chain'_cons]
    refine ⟨hstep.1, ?_⟩
    have hrec := ih (videoSyncUpdate (some vs) now s m).1 hstep.2.2.2.1
      (fun e he => by rw [hstep.2.2.2.2, ← hm]; exact hpath e (List.mem_cons_of_mem _ he))
      (by rw [hstep.2.2.1]; exact htime.2)
    rw [hstep.2.1] at hrec
    exact hrec

/-- C9: across any run of deck-update events of one deck with match
level ≥ 2, the published `videoElapsedMs` values are monotonically
non-decreasing provided the wall clock is non-decreasing and the matched
video path never changes (the accumulator is reset only by a path
change). -/
theorem C9_video_elapsed_monotone (l : List (ℚ × DeckState × VideoFile)) (p : String)
    (hlev : ∀ e ∈ l, 2 ≤ e.2.2.matchLevel)
    (hpaths : ∀ e ∈ l, e.2.2.path = p)
    (htimes : List.Chain' (· ≤ ·) (l.map (fun e => e.1))) :
    List.Chain' (· ≤ ·) (syncTrace none l) := by
  cases l with
  | nil => simp [syncTrace]
  | cons e rest =>
    obtain ⟨now, s, m⟩ := e
    have hfirst := videoSyncUpdate_first now s m
    rw [syncTrace]
    have hrec := syncTrace_chain rest (videoSyncUpdate none now s m).1 hfirst.2.2.2.1
      (fun e he => by
        rw [hfirst.2.2.2.2, hpaths _ (List.mem_cons_self _ _)]
        exact hpaths e (List.mem_cons_of_mem _ he))
      (by
        rw [hfirst.2.2.1]
        exact htimes)
    rw [← hfirst.1] at hrec
    exact hrec

/-- Witness for C9: two consecutive samples of deck 1 at times 1000 and
2000 against the same level-4 video give a monotone published run. -/
theorem C9_video_elapsed_monotone_witness :
    List.Chain' (· ≤ ·)
      (syncTrace none
        [(1000, sampleDeck2, { vid70 with matchLevel := 4 }),
         (2000, sampleDeck2, { vid70 with matchLevel := 4 })]) := by
  apply C9_video_elapsed_monotone _ "/videos/slow.mp4"
  · decide
  · decide
  · show List.Chain' (fun a b => a ≤ b) [(1000 : ℚ), 2000]
    exact List.chain'_cons.mpr ⟨by decide, List.chain'_singleton _⟩

/-! ## C10: matcher totality -/

/-- C10: the matcher is total on a non-empty index — for every song
filename and deck BPM it returns a video whenever at least one video is
indexed (the level-5 fallback accepts anything), and it returns none
exactly when the index is empty. -/
theorem C10_match_total (st : MatcherState) (song : String) (bpm : ℚ) :
    (st.indexed ≠ [] → ∃ v st2, matchVideo st song bpm = (some v, st2)) ∧
      (st.indexed = [] → matchVideo st song bpm = (none, st)) := by
  constructor
  · intro h
    unfold matchVideo
    cases hidx : st.indexed with
    | nil => exact absurd hidx h
    | cons d0 rest => exact ⟨_, _, rfl⟩
  · intro h
    unfold matchVideo
    rw [h]

/-- Witness for C10: the one-video index matches the empty song name at
deck BPM 0, and the empty index matches nothing. -/
theorem C10_match_total_witness :
    (∃ v st2, matchVideo matcherA "" 0 = (some v, st2)) ∧
      matchVideo emptyMatcher "xyz" (-5) = (none, emptyMatcher) := by
  constructor
  · exact (C10_match_total matcherA "" 0).1 (by decide)
  · exact (C10_match_total emptyMatcher "xyz" (-5)).2 rfl

end VdjSync
